import Mathlib

/-!
# shadowsocks-tiny: the relay core of `common.c`

A shallow embedding of the buffer operations, the SOCKS5 / shadowsocks header
parsers, the readiness table and the socket helpers of `src/common.c`, followed
by theorems about them.

Conventions of the embedding.

* A C `int` is an `Int`.  Where the operands of a sum are bounded by a test
  made before it (lengths and offsets within the buffer capacities) the sum is
  the integer sum.  In `add_data` the sum `len + size` comes before any test on
  `size`, so it is the 32-bit two's complement sum (`wrapInt`), as the target
  computes it.
* A byte is a `Nat` in `0..255`.  The struct declarations of `common.h` are not
  among the sources; following the specification (one-octet fields) a field
  read yields the octet value (`rd`).
* `ln->text` and `ln->cipher` are lists of `TEXT_BUF_SIZE` resp.
  `CIPHER_BUF_SIZE` bytes.  `memmove`/`memcpy` are modelled by `store`, which
  never changes the size of the destination; the statements keep every access
  inside the buffers (`Link.wf`).
* An event mask (`short events`) is a `Nat`: the masks are non-negative, bit 15
  being no poll event.  `time_t` values are `Int`, and `difftime` is their
  difference.
* The registry that starts at `link_head` is the list of its links in chain
  order; links are told apart by their descriptors, as `unlink_link` does.
* Calls into the C library and the kernel (`socket`, `connect`, `recv`, `send`,
  `getaddrinfo`, `inet_ntop`, `time`) are answered by an environment `Env` and
  recorded in `World.calls`.
* Logging (`sock_warn`, `pr_warn`, ...) has no effect on the state and is
  omitted.
-/

namespace SsTiny

/-! ## Constants -/

/-- Compile-time constants of `common.h`, which is not among the sources: they
are parameters of the development. -/
structure Config where
  TEXT_BUF_SIZE : Int
  CIPHER_BUF_SIZE : Int
  TCP_READ_TIMEOUT : Int
  TCP_CONNECT_TIMEOUT : Int

/-- Modelled from the spec: `SOCKS5_CONNECT` of the missing `common.h`
(§4.5, `CMD==0x01`). -/
def SOCKS5_CONNECT : Nat := 0x01

/-- Modelled from the spec: `SOCKS5_UDP_ASSOCIATE` of the missing `common.h`
(§4.5, `CMD==0x03`). -/
def SOCKS5_UDP_ASSOCIATE : Nat := 0x03

/-- Modelled from the spec: `SOCKS5_ADDR_IPV4` of the missing `common.h`
(§4.5, ATYP `0x01`). -/
def SOCKS5_ADDR_IPV4 : Nat := 0x01

/-- Modelled from the spec: `SOCKS5_ADDR_DOMAIN` of the missing `common.h`
(§4.5, ATYP `0x03`). -/
def SOCKS5_ADDR_DOMAIN : Nat := 0x03

/-- Modelled from the spec: `SOCKS5_ADDR_IPV6` of the missing `common.h`
(§4.5, ATYP `0x04`). -/
def SOCKS5_ADDR_IPV6 : Nat := 0x04

/-- Modelled from the spec: the flag `LOCAL` of the missing `enum link_state`
(§4.6: the state is a bitset, every flag one bit). -/
def LOCAL : Nat := 1

/-- Modelled from the spec: the flag `SERVER` of the missing `enum link_state`. -/
def SERVER : Nat := 2

/-- Modelled from the spec: the flag `SS_UDP` of the missing `enum link_state`. -/
def SS_UDP : Nat := 4

/-- Modelled from the spec: the flag `SS_CLIENT` of the missing `enum link_state`. -/
def SS_CLIENT : Nat := 8

/-- Modelled from the spec: the flag `SS_SERVER` of the missing `enum link_state`. -/
def SS_SERVER : Nat := 16

/-- The value of `POLLIN` in `<poll.h>`. -/
def POLLIN : Nat := 0x001

/-- The value of `POLLOUT` in `<poll.h>`. -/
def POLLOUT : Nat := 0x004

/-- The value of `SOCK_STREAM` in `<sys/socket.h>`. -/
def SOCK_STREAM : Nat := 1

/-- The value of `SOCK_DGRAM` in `<sys/socket.h>`. -/
def SOCK_DGRAM : Nat := 2

/-- The value of `SOCK_NONBLOCK` in `<sys/socket.h>`. -/
def SOCK_NONBLOCK : Nat := 2048

/-- The value of `AF_UNSPEC` in `<sys/socket.h>`. -/
def AF_UNSPEC : Nat := 0

/-- The value of `AF_INET` in `<sys/socket.h>`. -/
def AF_INET : Nat := 2

/-- The value of `AF_INET6` in `<sys/socket.h>`. -/
def AF_INET6 : Nat := 10

/-! ## Memory -/

/-- Modelled from the spec: the field types of the structs declared in the
missing `common.h` (`ver`, `cmd`, `rsv`, `atyp`, `nmethods`, `methods[]`,
`dst[]`).  Every field is one octet (§4.5), so reading `buf[i]` yields its
value in `0..255`. -/
def rd (buf : List Nat) (i : Nat) : Nat := buf.getD i 0

/-- The `n` bytes `buf[off .. off+n)`. -/
def load (buf : List Nat) (off n : Nat) : List Nat := (buf.drop off).take n

/-- Writing the bytes `src` at `buf[off ..]`; the buffer keeps its size. -/
def store (buf : List Nat) (off : Nat) (src : List Nat) : List Nat :=
  (buf.take off ++ src ++ buf.drop (off + src.length)).take buf.length

/-- The call `memmove(buf + dst, buf + src, n)` inside one buffer. -/
def memmove (buf : List Nat) (dst src : Int) (n : Int) : List Nat :=
  store buf dst.toNat (load buf src.toNat n.toNat)

/-- The call `memcpy(dst, src, n)` from the start of `src` to the start of `dst`. -/
def memcpy (dst src : List Nat) (n : Int) : List Nat :=
  store dst 0 (src.take n.toNat)

/-! ## Links -/

/-- One candidate of a `struct addrinfo` list. -/
structure Addrinfo where
  ai_family : Nat
  ai_socktype : Nat
  ai_addr : List Nat
  deriving DecidableEq, Repr

/-- The fields of `struct link` used by `common.c` (cipher contexts apart). -/
structure Link where
  state : Nat
  local_sockfd : Int
  server_sockfd : Int
  text : List Nat
  cipher : List Nat
  text_len : Int
  cipher_len : Int
  ss_header_len : Int
  server : List Addrinfo
  time : Int
  deriving DecidableEq, Repr

/-- The `type` string handed to the buffer functions: `"text"`, `"cipher"`, or
any other string. -/
inductive BufType where
  | text
  | cipher
  | other
  deriving DecidableEq, Repr

/-- The bytes currently held in the text buffer: `text[0 .. text_len)`. -/
def Link.textData (ln : Link) : List Nat := ln.text.take ln.text_len.toNat

/-- The bytes currently held in the cipher buffer: `cipher[0 .. cipher_len)`. -/
def Link.cipherData (ln : Link) : List Nat := ln.cipher.take ln.cipher_len.toNat

/-- The buffer-bound invariant of a link: both regions have their allocated
size and both length cursors lie within them. -/
structure Link.wf (cfg : Config) (ln : Link) : Prop where
  text_size : (ln.text.length : Int) = cfg.TEXT_BUF_SIZE
  cipher_size : (ln.cipher.length : Int) = cfg.CIPHER_BUF_SIZE
  text_lo : 0 ≤ ln.text_len
  text_hi : ln.text_len ≤ cfg.TEXT_BUF_SIZE
  cipher_lo : 0 ≤ ln.cipher_len
  cipher_hi : ln.cipher_len ≤ cfg.CIPHER_BUF_SIZE

/-! ## Buffer operations -/

/-- The value of `INT_MAX` in `<limits.h>` for a 32-bit `int`. -/
def INT_MAX : Int := 2147483647

/-- The `int` that a sum of two `int`s yields on the target: the integer sum
when it lies in `INT_MIN..INT_MAX`, and its 32-bit two's complement wrap
otherwise. -/
def wrapInt (x : Int) : Int := (x + 2147483648) % 4294967296 - 2147483648

/-- The function `add_data`: put `size` bytes of `data` in front of a buffer.
The sum `len + size` and the update `+= size` are `int` sums. -/
def add_data (cfg : Config) (ln : Link) (type : BufType) (data : List Nat)
    (size : Int) : Int × Link :=
  match type with
  | .text =>
    let len := ln.text_len
    if wrapInt (len + size) > cfg.TEXT_BUF_SIZE then (-1, ln)
    else
      let ln1 := { ln with text_len := wrapInt (ln.text_len + size) }
      let buf1 := if len > 0 then memmove ln1.text size 0 len else ln1.text
      (0, { ln1 with text := memcpy buf1 data size })
  | .cipher =>
    let len := ln.cipher_len
    if wrapInt (len + size) > cfg.CIPHER_BUF_SIZE then (-1, ln)
    else
      let ln1 := { ln with cipher_len := wrapInt (ln.cipher_len + size) }
      let buf1 := if len > 0 then memmove ln1.cipher size 0 len else ln1.cipher
      (0, { ln1 with cipher := memcpy buf1 data size })
  | .other => (-1, ln)

/-- The function `rm_data`: drop the first `size` bytes of a buffer. -/
def rm_data (ln : Link) (type : BufType) (size : Int) : Int × Link :=
  match type with
  | .text =>
    if ln.text_len < size then (-1, ln)
    else
      let ln1 := { ln with text_len := ln.text_len - size }
      let len := ln1.text_len
      (0, { ln1 with text := memmove ln1.text 0 size len })
  | .cipher =>
    if ln.cipher_len < size then (-1, ln)
    else
      let ln1 := { ln with cipher_len := ln.cipher_len - size }
      let len := ln1.cipher_len
      (0, { ln1 with cipher := memmove ln1.cipher 0 size len })
  | .other => (-1, ln)

/-! ## The readiness table -/

/-- One row of the `clients` table (`struct pollfd`; `revents` is not used by
`common.c`). -/
structure Pollfd where
  fd : Int
  events : Nat
  deriving DecidableEq, Repr

/-- The error numbers that `common.c` tells apart. -/
inductive Errno where
  | EAGAIN
  | EWOULDBLOCK
  | ENOTCONN
  | EPIPE
  | EINPROGRESS
  | EOTHER
  deriving DecidableEq, Repr

/-- A call that leaves `common.c`, as recorded in `World.calls`;
`enter_connect_server` marks an entry into `connect_server`. -/
inductive Call where
  | inet_ntop (family : Nat) (raw : List Nat)
  | getaddrinfo (host : List Nat) (port : Nat) (family socktype : Nat)
  | enter_connect_server
  | socket (family type : Nat)
  | connect (sockfd : Int)
  | recv (sockfd : Int) (len : Int)
  | send (sockfd : Int) (bytes : List Nat)
  | close (sockfd : Int)
  deriving DecidableEq, Repr

/-- The global state outside the link: the table `clients` (of `nfds` rows, row
0 for the listen socket) and the record of outgoing calls, oldest first. -/
structure World where
  clients : List Pollfd
  calls : List Call
  deriving DecidableEq, Repr

/-- Appending a call to the record. -/
def World.log (w : World) (c : Call) : World := { w with calls := w.calls ++ [c] }

/-- The answers of the C library and the kernel. -/
structure Env where
  now : Int
  socket : Nat → Nat → Int
  connect : Int → Addrinfo → Int × Errno
  inet_ntop : Nat → List Nat → Option (List Nat)
  getaddrinfo : List Nat → Nat → Nat → Nat → Option (List Addrinfo)
  recv : Int → Int → Int × Errno × List Nat
  send : Int → List Nat → Int × Errno

/-- The result of a function that returns an `int` and may change the global
state and the link. -/
structure Res where
  ret : Int
  w : World
  ln : Link

/-- The table produced by `poll_init` for `nfds` rows: `calloc` zeroes the rows
and every `fd` is set to `-1`. -/
def poll_init (nfds : Nat) : List Pollfd := List.replicate nfds ⟨-1, 0⟩

/-- The first row with `fd = sockfd` rewritten by `f`, if there is one; the
loop `for (i = ...; i < nfds; i++) if (clients[i].fd == sockfd) ...`. -/
def updRow (sockfd : Int) (f : Pollfd → Pollfd) : List Pollfd → Option (List Pollfd)
  | [] => none
  | c :: cs =>
    if c.fd = sockfd then some (f c :: cs)
    else (updRow sockfd f cs).map (fun r => c :: r)

/-- The function `poll_set` on the table. -/
def poll_set (cl : List Pollfd) (sockfd : Int) (events : Nat) : Int × List Pollfd :=
  match cl with
  | [] => (-1, cl)
  | c0 :: rows =>
    match updRow sockfd (fun c => { c with events := events }) rows with
    | some rows1 => (0, c0 :: rows1)
    | none =>
      match updRow (-1) (fun _ => ⟨sockfd, events⟩) rows with
      | some rows1 => (0, c0 :: rows1)
      | none => (-1, cl)

/-- The function `poll_add` on the table. -/
def poll_add (cl : List Pollfd) (sockfd : Int) (events : Nat) : Int × List Pollfd :=
  match cl with
  | [] => poll_set cl sockfd events
  | c0 :: rows =>
    match updRow sockfd (fun c => { c with events := c.events ||| events }) rows with
    | some rows1 => (0, c0 :: rows1)
    | none => poll_set cl sockfd events

/-- The table after `poll_set`, inside a world. -/
def World.poll_set (w : World) (sockfd : Int) (events : Nat) : World :=
  { w with clients := (SsTiny.poll_set w.clients sockfd events).2 }

/-- The table after `poll_add`, inside a world. -/
def World.poll_add (w : World) (sockfd : Int) (events : Nat) : World :=
  { w with clients := (SsTiny.poll_add w.clients sockfd events).2 }

/-! ## Connecting -/

/-- The loop `while (ai)` of `connect_server` over the candidates. -/
def connect_loop (env : Env) (w : World) (ln : Link) (type : Nat) : List Addrinfo → Res
  | [] => ⟨-1, w, ln⟩
  | ai :: rest =>
    if ai.ai_socktype = type then
      let type1 := type ||| SOCK_NONBLOCK
      let sockfd := env.socket ai.ai_family type1
      let w1 := w.log (.socket ai.ai_family type1)
      if sockfd = -1 then ⟨-1, w1, ln⟩
      else
        let ln1 := { ln with server_sockfd := sockfd, time := env.now }
        let r := env.connect sockfd ai
        let w2 := w1.log (.connect sockfd)
        if r.1 = -1 then
          if r.2 = Errno.EINPROGRESS then ⟨0, w2.poll_set sockfd POLLOUT, ln1⟩
          else ⟨-1, w2, ln1⟩
        else
          ⟨0, w2.poll_set sockfd POLLIN, { ln1 with state := ln1.state ||| SERVER }⟩
    else connect_loop env w ln type rest

/-- The function `connect_server`. -/
def connect_server (env : Env) (w : World) (ln : Link) : Res :=
  let w0 := w.log .enter_connect_server
  if ln.server_sockfd ≠ -1 then ⟨0, w0, ln⟩
  else
    let type := if ln.state &&& SS_UDP ≠ 0 then SOCK_DGRAM else SOCK_STREAM
    connect_loop env w0 ln type ln.server

/-! ## Header parsers -/

/-- The C string left in `addr` by `strncpy(addr, src, n); addr[n] = 0`. -/
def cstr (src : List Nat) : List Nat := src.takeWhile (fun b => b != 0)

/-- The value `ntohs(*(unsigned short *)(buf + off))`. -/
def ntohs_at (buf : List Nat) (off : Nat) : Nat := rd buf off * 256 + rd buf (off + 1)

/-- The part of `check_ss_header` after the address has been decoded: resolve,
set `ss_header_len`, remove the header, connect. -/
def ss_resolve (env : Env) (w : World) (ln : Link) (socktype family : Nat)
    (addr : List Nat) (port : Nat) (addr_len : Int) : Res :=
  let w1 := w.log (.getaddrinfo addr port family socktype)
  match env.getaddrinfo addr port family socktype with
  | none => ⟨-1, w1, ln⟩
  | some res =>
    if ln.state &&& SS_UDP ≠ 0 then
      let ln1 := { ln with ss_header_len := ln.text_len }
      connect_server env w1 { ln1 with server := res }
    else
      let ln1 := { ln with ss_header_len := 1 + addr_len + 2 }
      let r := rm_data ln1 .text ln1.ss_header_len
      if r.1 = -1 then ⟨-1, w1, r.2⟩
      else connect_server env w1 { r.2 with server := res }

/-- The function `check_ss_header`; `struct ss_header` is `atyp` followed by
`dst[]`, so `req->dst[i]` is `text[1 + i]`. -/
def check_ss_header (env : Env) (w : World) (ln : Link) : Res :=
  let socktype := if ln.state &&& SS_UDP ≠ 0 then SOCK_DGRAM else SOCK_STREAM
  let atyp := rd ln.text 0
  if atyp = SOCKS5_ADDR_IPV4 then
    let addr_len : Int := 4
    if ln.text_len < 7 then ⟨-1, w, ln⟩
    else
      let w1 := w.log (.inet_ntop AF_INET (load ln.text 1 4))
      match env.inet_ntop AF_INET (load ln.text 1 4) with
      | none => ⟨-1, w1, ln⟩
      | some addr =>
        ss_resolve env w1 ln socktype AF_INET addr (ntohs_at ln.text (1 + 4)) addr_len
  else if atyp = SOCKS5_ADDR_DOMAIN then
    let addr_len : Int := rd ln.text 1
    if ln.text_len < 1 + 1 + addr_len + 2 then ⟨-1, w, ln⟩
    else
      let addr := cstr (load ln.text 2 addr_len.toNat)
      ss_resolve env w ln socktype AF_UNSPEC addr
        (ntohs_at ln.text (1 + addr_len.toNat + 1)) (addr_len + 1)
  else if atyp = SOCKS5_ADDR_IPV6 then
    let addr_len : Int := 16
    let w1 := w.log (.inet_ntop AF_INET6 (load ln.text 1 16))
    match env.inet_ntop AF_INET6 (load ln.text 1 16) with
    | none => ⟨-1, w1, ln⟩
    | some addr =>
      ss_resolve env w1 ln socktype AF_INET6 addr (ntohs_at ln.text (1 + 16)) addr_len
  else ⟨-1, w, ln⟩

/-- The loop `while (i-- > 0) if (req->methods[i] == 0x00) return 0;` followed
by `return -1`; `req->methods[i]` is `text[2 + i]`. -/
def auth_loop (text : List Nat) : Nat → Int
  | 0 => -1
  | i + 1 => if rd text (2 + i) = 0x00 then 0 else auth_loop text i

/-- The function `check_socks5_auth_header`; `struct socks5_auth_request` is
`ver`, `nmethods`, `methods[]`.  The link is returned next to the result, as it
is after the call. -/
def check_socks5_auth_header (ln : Link) : Int × Link :=
  if ln.text_len < 3 then (-1, ln)
  else if rd ln.text 0 ≠ 0x05 then (-1, ln)
  else
    let i := rd ln.text 1
    if ((i : Int) + 2) ≠ ln.text_len then (-1, ln)
    else (auth_loop ln.text i, ln)

/-- The end of `check_socks5_cmd_header`, once `ss_header_len` is known and the
buffer is long enough. -/
def cmd_finish (env : Env) (w : World) (ln : Link) (ss_header_len : Int) : Res :=
  let ln1 := { ln with ss_header_len := ss_header_len }
  let r := rm_data ln1 .text 3
  if r.1 = -1 then ⟨-1, w, r.2⟩
  else
    let ln2 := { r.2 with cipher := memcpy r.2.cipher r.2.text r.2.ss_header_len }
    connect_server env w ln2

/-- The function `check_socks5_cmd_header`; `struct socks5_cmd_request` is
`ver`, `cmd`, `rsv`, `atyp`, `dst[]`, so `req->dst[0]` is `text[4]`. -/
def check_socks5_cmd_header (env : Env) (w : World) (ln : Link) : Res :=
  if rd ln.text 0 ≠ 0x05 then ⟨-1, w, ln⟩
  else
    let cmd := rd ln.text 1
    if cmd = SOCKS5_CONNECT then
      if rd ln.text 2 ≠ 0x00 then ⟨-1, w, ln⟩
      else
        let atyp := rd ln.text 3
        if atyp = SOCKS5_ADDR_IPV4 then
          let ss_header_len : Int := 1 + 4 + 2
          if ln.text_len < ss_header_len + 3 then ⟨-1, w, ln⟩
          else cmd_finish env w ln ss_header_len
        else if atyp = SOCKS5_ADDR_DOMAIN then
          let ss_header_len : Int := 1 + 1 + (rd ln.text 4 : Int) + 2
          if ln.text_len < ss_header_len + 3 then ⟨-1, w, ln⟩
          else cmd_finish env w ln ss_header_len
        else if atyp = SOCKS5_ADDR_IPV6 then
          let ss_header_len : Int := 1 + 16 + 2
          if ln.text_len < ss_header_len + 3 then ⟨-1, w, ln⟩
          else cmd_finish env w ln ss_header_len
        else ⟨-1, w, ln⟩
    else if cmd = SOCKS5_UDP_ASSOCIATE then
      ⟨-1, w, { ln with state := ln.state ||| SS_UDP }⟩
    else ⟨-1, w, ln⟩

/-! ## Reading and sending -/

/-- The function `do_read`: `recv` into a buffer at `offset`. -/
def do_read (cfg : Config) (env : Env) (w : World) (sockfd : Int) (ln : Link)
    (type : BufType) (offset : Int) : Res :=
  match type with
  | .other => ⟨-2, w, ln⟩
  | _ =>
    let len := cfg.TEXT_BUF_SIZE - offset
    let r := env.recv sockfd len
    let ret := r.1
    let w1 := w.log (.recv sockfd len)
    if ret = -1 then
      if r.2.1 ≠ Errno.EAGAIN ∧ r.2.1 ≠ Errno.EWOULDBLOCK then ⟨-2, w1, ln⟩
      else ⟨-1, w1.poll_add sockfd POLLIN, ln⟩
    else if ret = 0 then ⟨-2, w1, ln⟩
    else
      let got := r.2.2.take ret.toNat
      match type with
      | .text =>
        ⟨ret, w1, { ln with text := store ln.text offset.toNat got, time := env.now,
                            text_len := ret + offset }⟩
      | _ =>
        ⟨ret, w1, { ln with cipher := store ln.cipher offset.toNat got, time := env.now,
                            cipher_len := ret + offset }⟩

/-- The function `do_send`: `send` the bytes of a buffer from `offset` on. -/
def do_send (env : Env) (w : World) (sockfd : Int) (ln : Link)
    (type : BufType) (offset : Int) : Res :=
  match type with
  | .other => ⟨-2, w, ln⟩
  | _ =>
    let buf := if type = .text then ln.text else ln.cipher
    let len := (if type = .text then ln.text_len else ln.cipher_len) - offset
    let bytes := load buf offset.toNat len.toNat
    let r := env.send sockfd bytes
    let ret := r.1
    let w1 := w.log (.send sockfd bytes)
    if ret = -1 then
      if r.2 ≠ Errno.EAGAIN ∧ r.2 ≠ Errno.EWOULDBLOCK ∧
          r.2 ≠ Errno.ENOTCONN ∧ r.2 ≠ Errno.EPIPE then ⟨-2, w1, ln⟩
      else ⟨-1, w1.poll_add sockfd POLLOUT, ln⟩
    else
      let rm := rm_data { ln with time := env.now } type ret
      if rm.1 = -1 then ⟨-2, w1, rm.2⟩
      else if ret ≠ len then ⟨-1, w1.poll_add sockfd POLLOUT, rm.2⟩
      else ⟨ret, w1.poll_set sockfd POLLIN, rm.2⟩

/-! ## The readiness table, continued -/

/-- The value of `a & ~b` for two event masks.  A mask is a non-negative
`short` (bit 15 is no poll event), kept as a natural number; clearing the bits
of `b` in `a` is `a xor (a and b)`. -/
def maskClear (a b : Nat) : Nat := a ^^^ (a &&& b)

/-- The function `poll_rm` on the table. -/
def poll_rm (cl : List Pollfd) (sockfd : Int) (events : Nat) : Int × List Pollfd :=
  match cl with
  | [] => poll_set cl sockfd events
  | c0 :: rows =>
    match updRow sockfd (fun c => { c with events := maskClear c.events events }) rows with
    | some rows1 => (0, c0 :: rows1)
    | none => poll_set cl sockfd events

/-- The function `poll_del` on the table. -/
def poll_del (cl : List Pollfd) (sockfd : Int) : Int × List Pollfd :=
  match cl with
  | [] => (-1, cl)
  | c0 :: rows =>
    match updRow sockfd (fun c => { c with fd := -1 }) rows with
    | some rows1 => (0, c0 :: rows1)
    | none => (-1, cl)

/-- The loop of `get_events` over the rows from row 1 on, with the `return`
that follows it. -/
def get_events_loop (sockfd : Int) : List Pollfd → Int
  | [] => -1
  | c :: cs => if c.fd = sockfd then (c.events : Int) else get_events_loop sockfd cs

/-- The function `get_events` on the table. -/
def get_events (cl : List Pollfd) (sockfd : Int) : Int :=
  get_events_loop sockfd cl.tail

/-- The table after `poll_del`, inside a world. -/
def World.poll_del (w : World) (sockfd : Int) : World :=
  { w with clients := (SsTiny.poll_del w.clients sockfd).2 }

/-! ## The link registry -/

/-- The function `get_link` on the list that starts at `link_head`. -/
def get_link : List Link → Int → Option Link
  | [], _ => none
  | head :: rest, sockfd =>
    if head.local_sockfd = sockfd ∨ head.server_sockfd = sockfd then some head
    else get_link rest sockfd

/-- The loop `while (head)` of `unlink_link`: the list without its first node
whose two descriptors are those of `ln`, if there is one. -/
def unlink_loop (ln : Link) : List Link → Option (List Link)
  | [] => none
  | head :: rest =>
    if head.local_sockfd = ln.local_sockfd ∧ head.server_sockfd = ln.server_sockfd then
      some rest
    else (unlink_loop ln rest).map (fun r => head :: r)

/-- The function `unlink_link` on the list that starts at `link_head`. -/
def unlink_link (reg : List Link) (ln : Link) : Int × List Link :=
  match unlink_loop ln reg with
  | some reg1 => (0, reg1)
  | none => (-1, reg)

/-- The function `destroy_link`: unlink, forget both descriptors in the table,
close them.  `free_link` releases memory only. -/
def destroy_link (reg : List Link) (w : World) (ln : Link) : List Link × World :=
  let reg1 := (unlink_link reg ln).2
  let w1 := w.poll_del ln.local_sockfd
  let w2 := w1.poll_del ln.server_sockfd
  (reg1, (w2.log (.close ln.local_sockfd)).log (.close ln.server_sockfd))

/-- The function `time_out`; `difftime` of two `time_t` is their difference. -/
def time_out (this that : Int) (value : Int) : Int :=
  if this - that > value then 0 else -1

/-- The loop `while (next)` of `reaper`.  The first argument is the chain of
nodes still to visit (`next` is read before a node is destroyed), the second
the registry and the world as they are at that moment. -/
def reaper_loop (cfg : Config) (now : Int) : List Link → List Link × World → List Link × World
  | [], st => st
  | ln :: next, st =>
    let value := if ln.state &&& SERVER ≠ 0 then cfg.TCP_READ_TIMEOUT
                 else cfg.TCP_CONNECT_TIMEOUT
    if time_out now ln.time value = 0 then
      reaper_loop cfg now next (destroy_link st.1 st.2 ln)
    else reaper_loop cfg now next st

/-- The state `reaper` works on: the registry, the world, and its static
variable `checked` (initially `(time_t)-1`). -/
structure Global where
  link_head : List Link
  w : World
  checked : Int
  deriving DecidableEq, Repr

/-- The function `reaper`, called when `time(NULL)` is `now`.  The Boolean of
the result tells whether the `while` loop was reached. -/
def reaper (cfg : Config) (now : Int) (g : Global) : Bool × Global :=
  if g.checked = -1 then
    let st := reaper_loop cfg now g.link_head (g.link_head, g.w)
    (true, ⟨st.1, st.2, now⟩)
  else if time_out now g.checked cfg.TCP_READ_TIMEOUT = -1 then (false, g)
  else
    let st := reaper_loop cfg now g.link_head (g.link_head, g.w)
    (true, ⟨st.1, st.2, now⟩)

/-! ## The method-negotiation reply -/

/-- Modelled from the spec: `SOCKS5_METHOD_NOT_REQUIRED` of the missing
`common.h` (§4.5, `METHOD=0x00`). -/
def SOCKS5_METHOD_NOT_REQUIRED : Nat := 0x00

/-- Modelled from the spec: `SOCKS5_METHOD_ERROR` of the missing `common.h`
(§4.5, `0xFF` on failure). -/
def SOCKS5_METHOD_ERROR : Nat := 0xFF

/-- The function `create_socks5_auth_reply`.  `struct socks5_auth_reply` of the
missing `common.h` is `ver`, `method`, one octet each (§4.5), so `rep` is two
bytes and `sizeof(rep)` is 2. -/
def create_socks5_auth_reply (cfg : Config) (ln : Link) (ok : Bool) : Int × Link :=
  let rep : List Nat :=
    [0x05, if ok then SOCKS5_METHOD_NOT_REQUIRED else SOCKS5_METHOD_ERROR]
  let ln1 := { ln with text_len := 0 }
  let r := add_data cfg ln1 .text rep 2
  if r.1 = -1 then (-1, r.2) else (0, r.2)

/-! ## Vocabulary of the statements -/

/-- The length cursor of the buffer named by `type`. -/
def Link.bufLen (ln : Link) : BufType → Int
  | .text => ln.text_len
  | .cipher => ln.cipher_len
  | .other => 0

/-- The bytes held in the buffer named by `type`. -/
def Link.bufData (ln : Link) : BufType → List Nat
  | .text => ln.textData
  | .cipher => ln.cipherData
  | .other => []

/-- The capacity of the buffer named by `type`. -/
def Config.cap (cfg : Config) : BufType → Int
  | .text => cfg.TEXT_BUF_SIZE
  | .cipher => cfg.CIPHER_BUF_SIZE
  | .other => 0

/-- The address-header length `h` that goes with an ATYP and a domain length
byte `L` in a SOCKS5 request: 7 for IPv4, `4 + L` for a domain, 19 for IPv6. -/
def specHeaderLen (atyp L : Nat) : Option Int :=
  if atyp = 0x01 then some 7
  else if atyp = 0x03 then some (4 + (L : Int))
  else if atyp = 0x04 then some 19
  else none

/-- The address length `addr_len` of a shadowsocks header as the specification
gives it: 4 for IPv4, `dst[0] + 1` for a domain, 16 for IPv6. -/
def specAddrLen (atyp dst0 : Nat) : Option Int :=
  if atyp = 0x01 then some 4
  else if atyp = 0x03 then some ((dst0 : Int) + 1)
  else if atyp = 0x04 then some 16
  else none

/-- A valid SOCKS5 CONNECT request at the start of the text buffer, complete
within `text_len`. -/
def validConnect (ln : Link) : Prop :=
  rd ln.text 0 = 5 ∧ rd ln.text 1 = 0x01 ∧ rd ln.text 2 = 0 ∧
  ∃ h, specHeaderLen (rd ln.text 3) (rd ln.text 4) = some h ∧ 3 + h ≤ ln.text_len

/-- One call on the text buffer: `add_data` with a block, or `rm_data` with a
size. -/
inductive TextOp where
  | add (data : List Nat)
  | rm (n : Int)
  deriving DecidableEq, Repr

/-- Running a sequence of calls on the text buffer.  The result is `none` as
soon as a call fails; otherwise it is the concatenation, in call order, of the
blocks taken out by `rm_data`, and the final link.  A block is handed to
`add_data` with its length as `int size`; a block longer than `INT_MAX` has no
such size, and the call is not made. -/
def runText (cfg : Config) : Link → List TextOp → Option (List Nat × Link)
  | ln, [] => some ([], ln)
  | ln, .add data :: ops =>
    if (data.length : Int) ≤ INT_MAX ∧ (add_data cfg ln .text data data.length).1 = 0 then
      runText cfg (add_data cfg ln .text data data.length).2 ops
    else none
  | ln, .rm n :: ops =>
    if (rm_data ln .text n).1 = 0 then
      (runText cfg (rm_data ln .text n).2 ops).map
        (fun r => (ln.textData.take n.toNat ++ r.1, r.2))
    else none

/-- The concatenation, in call order, of the blocks given to `add_data`. -/
def addedBytes : List TextOp → List Nat
  | [] => []
  | .add data :: ops => data ++ addedBytes ops
  | .rm _ :: ops => addedBytes ops

/-- Every `rm_data` of the sequence has a non-negative size. -/
def sizesNonneg : List TextOp → Bool
  | [] => true
  | .add _ :: ops => sizesNonneg ops
  | .rm n :: ops => decide (0 ≤ n) && sizesNonneg ops

/-- Along the run, every `add_data` call meets an empty text buffer. -/
def addsOnEmpty (cfg : Config) : Link → List TextOp → Bool
  | _, [] => true
  | ln, .add data :: ops =>
    decide (ln.text_len = 0) &&
      addsOnEmpty cfg (add_data cfg ln .text data data.length).2 ops
  | ln, .rm n :: ops => addsOnEmpty cfg (rm_data ln .text n).2 ops

/-- The bytes taken out by `rm_data` during a run followed by the bytes still in
the text buffer; `none` when a call of the run failed. -/
def fifoView (r : Option (List Nat × Link)) : Option (List Nat) :=
  r.map (fun x => x.1 ++ x.2.textData)

/-- A run of four calls in which every `add_data` meets an empty buffer. -/
def opsDrain : List TextOp := [.add [1, 2, 3], .rm 2, .rm 1, .add [4]]

/-- The bounds on the two length cursors:
`0 ≤ text_len ≤ TEXT_BUF_SIZE` and `0 ≤ cipher_len ≤ CIPHER_BUF_SIZE`. -/
def Link.bounded (cfg : Config) (ln : Link) : Prop :=
  0 ≤ ln.text_len ∧ ln.text_len ≤ cfg.TEXT_BUF_SIZE ∧
  0 ≤ ln.cipher_len ∧ ln.cipher_len ≤ cfg.CIPHER_BUF_SIZE

/-- One call of a buffer-changing function on a link. -/
inductive LinkOp where
  | add (type : BufType) (data : List Nat)
  | rm (type : BufType) (n : Int)
  | read (env : Env) (sockfd : Int) (type : BufType) (offset : Int)
  | send (env : Env) (sockfd : Int) (type : BufType) (offset : Int)

/-- The link after the call. -/
def LinkOp.run (cfg : Config) (w : World) (ln : Link) : LinkOp → Link
  | .add type data => (add_data cfg ln type data data.length).2
  | .rm type n => (rm_data ln type n).2
  | .read env sockfd type offset => (do_read cfg env w sockfd ln type offset).ln
  | .send env sockfd type offset => (do_send env w sockfd ln type offset).ln

/-- The bytes `do_send` hands to `send`. -/
def sendBytes (ln : Link) (type : BufType) (offset : Int) : List Nat :=
  load (if type = .text then ln.text else ln.cipher) offset.toNat
    ((if type = .text then ln.text_len else ln.cipher_len) - offset).toNat

/-- The side conditions of a call: sizes are non-negative, the sum
`len + size` of `add_data` is at most `INT_MAX`, the offset of `do_send` lies
within the current length and that of `do_read` within `TEXT_BUF_SIZE`, and
`recv`/`send` answer -1 or a count up to the requested length. -/
def LinkOp.ok (cfg : Config) (ln : Link) : LinkOp → Prop
  | .add type data => ln.bufLen type + (data.length : Int) ≤ INT_MAX
  | .rm _ n => 0 ≤ n
  | .read env sockfd _ offset =>
    0 ≤ offset ∧ offset ≤ cfg.TEXT_BUF_SIZE ∧
    -1 ≤ (env.recv sockfd (cfg.TEXT_BUF_SIZE - offset)).1 ∧
    (env.recv sockfd (cfg.TEXT_BUF_SIZE - offset)).1 ≤ cfg.TEXT_BUF_SIZE - offset
  | .send env sockfd type offset =>
    0 ≤ offset ∧ offset ≤ ln.bufLen type ∧
    -1 ≤ (env.send sockfd (sendBytes ln type offset)).1 ∧
    (env.send sockfd (sendBytes ln type offset)).1 ≤ ln.bufLen type - offset

/-- The fields of a link that `connect_server` never writes. -/
def sameBuffers (a b : Link) : Prop :=
  a.text = b.text ∧ a.cipher = b.cipher ∧ a.text_len = b.text_len ∧
  a.cipher_len = b.cipher_len ∧ a.ss_header_len = b.ss_header_len ∧
  a.local_sockfd = b.local_sockfd ∧ a.server = b.server

/-- A small configuration used to evaluate the definitions. -/
def cfg0 : Config := ⟨32, 48, 60, 10⟩

/-- A link with empty buffers under `cfg0`, no server socket and one TCP
candidate address. -/
def ln0 : Link :=
  { state := LOCAL ||| SS_CLIENT, local_sockfd := 5, server_sockfd := -1,
    text := List.replicate 32 0, cipher := List.replicate 48 0,
    text_len := 0, cipher_len := 0, ss_header_len := 0,
    server := [⟨AF_INET, SOCK_STREAM, [10, 0, 0, 1, 31, 144]⟩], time := 0 }

/-- The link `ln0` holding `bytes` at the start of its text buffer. -/
def lnText (bytes : List Nat) : Link :=
  { ln0 with text := store ln0.text 0 bytes, text_len := bytes.length }

/-- A server-role TCP link without candidates, holding `bytes` at the start of
its text buffer. -/
def lnSrv (bytes : List Nat) : Link :=
  { lnText bytes with state := LOCAL ||| SS_SERVER, server := [] }

/-- A world with a four-row table and no recorded call. -/
def w0 : World := ⟨poll_init 4, []⟩

/-- An environment in which every call succeeds: `socket` yields descriptor 7,
`connect` is in progress, the resolver yields one TCP candidate. -/
def env0 : Env :=
  { now := 100,
    socket := fun _ _ => 7,
    connect := fun _ _ => (-1, Errno.EINPROGRESS),
    inet_ntop := fun _ raw => some raw,
    getaddrinfo := fun _ _ _ _ => some [⟨AF_INET, SOCK_STREAM, []⟩],
    recv := fun _ _ => (2, Errno.EOTHER, [9, 9]),
    send := fun _ bytes => (bytes.length, Errno.EOTHER) }

/-! ## Vocabulary of the statements: table, registry, reaper -/

/-- The tables that calls of `poll_set`, `poll_add`, `poll_rm` and `poll_del`
can produce from the table of `poll_init`. -/
inductive Reachable : List Pollfd → Prop where
  | init (nfds : Nat) : Reachable (poll_init nfds)
  | set {cl : List Pollfd} (fd : Int) (ev : Nat) :
      Reachable cl → Reachable (poll_set cl fd ev).2
  | add {cl : List Pollfd} (fd : Int) (ev : Nat) :
      Reachable cl → Reachable (poll_add cl fd ev).2
  | rm {cl : List Pollfd} (fd : Int) (ev : Nat) :
      Reachable cl → Reachable (poll_rm cl fd ev).2
  | del {cl : List Pollfd} (fd : Int) :
      Reachable cl → Reachable (poll_del cl fd).2

/-- The number of rows among rows 1..nfds-1 whose `fd` is `fd`. -/
def rowCount (cl : List Pollfd) (fd : Int) : Nat :=
  (cl.tail.map (fun c => c.fd)).count fd

/-- Every descriptor other than -1 occupies at most one of the rows
1..nfds-1. -/
def UniqueFds (cl : List Pollfd) : Prop :=
  ∀ fd : Int, fd ≠ -1 → rowCount cl fd ≤ 1

/-- The links of a registry have pairwise distinct `local_sockfd`. -/
def distinctLocal (reg : List Link) : Prop :=
  reg.Pairwise (fun a b => a.local_sockfd ≠ b.local_sockfd)

/-- A link is past its timeout at `now`: `now - time > T`, with
`T = TCP_READ_TIMEOUT` when the link has the `SERVER` flag and
`T = TCP_CONNECT_TIMEOUT` otherwise. -/
def expired (cfg : Config) (now : Int) (ln : Link) : Bool :=
  decide (now - ln.time >
    (if ln.state &&& SERVER ≠ 0 then cfg.TCP_READ_TIMEOUT else cfg.TCP_CONNECT_TIMEOUT))

/-- The `close` calls that destroying the given links makes, in order. -/
def closeCalls : List Link → List Call
  | [] => []
  | ln :: rest => .close ln.local_sockfd :: .close ln.server_sockfd :: closeCalls rest

/-- The times, among successive calls of `reaper` at the given times, at which
the call reached its loop. -/
def sweepTimes (cfg : Config) : Global → List Int → List Int
  | _, [] => []
  | g, now :: ts =>
    if (reaper cfg now g).1 then now :: sweepTimes cfg (reaper cfg now g).2 ts
    else sweepTimes cfg (reaper cfg now g).2 ts

/-- The link `ln0` with the given descriptors, state and time of last
activity. -/
def lnFd (l s : Int) (st : Nat) (t : Int) : Link :=
  { ln0 with local_sockfd := l, server_sockfd := s, state := st, time := t }

/-- A registry of three links: one idle and connected, one connecting, one
active and connected. -/
def reg3 : List Link :=
  [lnFd 5 6 (LOCAL ||| SERVER) 0, lnFd 7 8 LOCAL 95, lnFd 9 10 (LOCAL ||| SERVER) 90]

/-- The table in which the six descriptors of `reg3` have a row each. -/
def cl3 : List Pollfd :=
  [⟨3, 1⟩, ⟨5, 1⟩, ⟨6, 1⟩, ⟨7, 1⟩, ⟨8, 4⟩, ⟨9, 1⟩, ⟨10, 1⟩, ⟨-1, 0⟩]

/-- The table reached from `poll_init 4` by registering descriptors 5 and
6. -/
def cl56 : List Pollfd := (poll_set (poll_set (poll_init 4) 5 POLLIN).2 6 POLLOUT).2

/-- The link `ln` holds a too-short part of the request held by `full`: its
text buffer holds fewer bytes than that of `full`, and they are the first
bytes of `full`. -/
def shortOf (ln full : Link) : Prop :=
  0 ≤ ln.text_len ∧ ln.text_len < full.text_len ∧
  ln.textData = full.textData.take ln.text_len.toNat

/-- The environment `env0` with a resolver that knows one name only: it answers
`example.com`, port 443, family `AF_UNSPEC`, socket type `SOCK_STREAM` with one
TCP candidate, and fails on every other question. -/
def envDns : Env :=
  { env0 with
    getaddrinfo := fun host port fam st =>
      if host = [101, 120, 97, 109, 112, 108, 101, 46, 99, 111, 109] ∧ port = 443 ∧
          fam = AF_UNSPEC ∧ st = SOCK_STREAM then
        some [⟨AF_INET, SOCK_STREAM, [93, 184, 216, 34, 1, 187]⟩]
      else none }

/-- The four-row table reached from `poll_init 4` by registering descriptors
3, 4 and 6: every row 1..3 is taken. -/
def clFull : List Pollfd :=
  (poll_set (poll_set (poll_set (poll_init 4) 3 POLLIN).2 4 POLLIN).2 6 POLLIN).2

/-- The environment `env0` in which `send` accepts `n` bytes. -/
def envSend (n : Int) : Env := { env0 with send := fun _ _ => (n, Errno.EOTHER) }

/-- One call on the readiness table. -/
inductive PollOp where
  | set (fd : Int) (events : Nat)
  | add (fd : Int) (events : Nat)
  | rm (fd : Int) (events : Nat)
  | del (fd : Int)
  deriving DecidableEq, Repr

/-- The table after the call. -/
def PollOp.run (cl : List Pollfd) : PollOp → List Pollfd
  | .set fd events => (poll_set cl fd events).2
  | .add fd events => (poll_add cl fd events).2
  | .rm fd events => (poll_rm cl fd events).2
  | .del fd => (poll_del cl fd).2

/-- The table after a sequence of calls, made in order. -/
def runPoll : List Pollfd → List PollOp → List Pollfd
  | cl, [] => cl
  | cl, op :: ops => runPoll (op.run cl) ops

/-- A sequence of calls that registers, changes, forgets and registers again
descriptor 5, next to descriptors 6 and 7. -/
def opsPoll : List PollOp :=
  [.set 5 POLLIN, .set 5 POLLOUT, .add 6 POLLIN, .add 5 POLLIN, .rm 7 POLLIN,
   .del 5, .rm 5 POLLOUT, .set 5 POLLIN]

/-! ## Memory lemmas -/

theorem store_length (buf : List Nat) (off : Nat) (src : List Nat) :
    (store buf off src).length = buf.length := by
  unfold store
  simp [List.length_take, List.length_append, List.length_drop]
  omega

theorem store_eq_of_le (buf : List Nat) (off : Nat) (src : List Nat)
    (h : off + src.length ≤ buf.length) :
    store buf off src = buf.take off ++ src ++ buf.drop (off + src.length) := by
  unfold store
  apply List.take_of_length_le
  simp [List.length_take, List.length_append, List.length_drop]
  omega

theorem load_length (buf : List Nat) (off n : Nat) (h : off + n ≤ buf.length) :
    (load buf off n).length = n := by
  unfold load
  simp [List.length_take, List.length_drop]
  omega

theorem take_store_zero (buf src : List Nat) (h : src.length ≤ buf.length) :
    (store buf 0 src).take src.length = src := by
  rw [store_eq_of_le buf 0 src (by omega)]
  simp

theorem rm_content (buf : List Nat) (n len : Nat) (h1 : n ≤ len) (h2 : len ≤ buf.length) :
    (store buf 0 (load buf n (len - n))).take (len - n) = (buf.take len).drop n := by
  have hl : (load buf n (len - n)).length = len - n := load_length buf n (len - n) (by omega)
  have := take_store_zero buf (load buf n (len - n)) (by omega)
  rw [hl] at this
  rw [this, load, List.drop_take]

theorem add_content (buf data : List Nat) (len : Nat) (h : len + data.length ≤ buf.length) :
    (store (store buf data.length (load buf 0 len)) 0 data).take (len + data.length)
      = data ++ buf.take len := by
  have hl : (load buf 0 len).length = len := load_length buf 0 len (by omega)
  have h1 : store buf data.length (load buf 0 len)
      = buf.take data.length ++ load buf 0 len ++ buf.drop (data.length + len) := by
    have := store_eq_of_le buf data.length (load buf 0 len) (by omega)
    rw [hl] at this
    exact this
  have hlen1 := store_length buf data.length (load buf 0 len)
  rw [store_eq_of_le _ 0 data (by omega), h1]
  have ht : (buf.take data.length).length = data.length := by
    simp [List.length_take]; omega
  simp only [List.take_zero, List.nil_append, Nat.zero_add]
  rw [List.append_assoc, List.drop_left' ht, Nat.add_comm len data.length,
    List.take_append, List.take_left' hl]
  simp [load]

/-! ## `rm_data` and `add_data` -/

theorem rm_data_text_ok (ln : Link) (n : Int) (h : n ≤ ln.text_len) :
    rm_data ln .text n
      = (0, { ln with text_len := ln.text_len - n,
                      text := memmove ln.text 0 n (ln.text_len - n) }) := by
  simp [rm_data, not_lt.mpr h]

theorem rm_data_cipher_ok (ln : Link) (n : Int) (h : n ≤ ln.cipher_len) :
    rm_data ln .cipher n
      = (0, { ln with cipher_len := ln.cipher_len - n,
                      cipher := memmove ln.cipher 0 n (ln.cipher_len - n) }) := by
  simp [rm_data, not_lt.mpr h]

theorem rm_data_fail (ln : Link) (type : BufType) (n : Int) (h : ln.bufLen type < n) :
    rm_data ln type n = (-1, ln) := by
  cases type <;> simp_all [rm_data, Link.bufLen]

theorem memmove_front_take (buf : List Nat) (n len : Int) (hn : 0 ≤ n) (h1 : n ≤ len)
    (h2 : len ≤ buf.length) :
    (memmove buf 0 n (len - n)).take (len - n).toNat = (buf.take len.toNat).drop n.toNat := by
  have e : (len - n).toNat = len.toNat - n.toNat := by omega
  simp only [memmove, Int.toNat_zero, e]
  exact rm_content buf n.toNat len.toNat (by omega) (by omega)

theorem wrapInt_eq (x : Int) (hlo : 0 ≤ x) (hhi : x ≤ INT_MAX) : wrapInt x = x := by
  unfold wrapInt
  unfold INT_MAX at hhi
  omega

theorem add_data_text_ok (cfg : Config) (ln : Link) (data : List Nat) (size : Int)
    (hrep : wrapInt (ln.text_len + size) = ln.text_len + size)
    (h : ln.text_len + size ≤ cfg.TEXT_BUF_SIZE) :
    add_data cfg ln .text data size
      = (0, { ln with text_len := ln.text_len + size,
                      text := memcpy (if ln.text_len > 0 then memmove ln.text size 0 ln.text_len
                                      else ln.text) data size }) := by
  simp [add_data, hrep, not_lt.mpr h]

theorem add_data_cipher_ok (cfg : Config) (ln : Link) (data : List Nat) (size : Int)
    (hrep : wrapInt (ln.cipher_len + size) = ln.cipher_len + size)
    (h : ln.cipher_len + size ≤ cfg.CIPHER_BUF_SIZE) :
    add_data cfg ln .cipher data size
      = (0, { ln with cipher_len := ln.cipher_len + size,
                      cipher := memcpy (if ln.cipher_len > 0
                                        then memmove ln.cipher size 0 ln.cipher_len
                                        else ln.cipher) data size }) := by
  simp [add_data, hrep, not_lt.mpr h]

theorem add_data_fail (cfg : Config) (ln : Link) (type : BufType) (data : List Nat)
    (size : Int) (hrep : wrapInt (ln.bufLen type + size) = ln.bufLen type + size)
    (h : cfg.cap type < ln.bufLen type + size) :
    add_data cfg ln type data size = (-1, ln) := by
  cases type <;> simp_all [add_data, Link.bufLen, Config.cap]

theorem prepend_take (buf data : List Nat) (len : Int) (h0 : 0 ≤ len)
    (h : len + data.length ≤ buf.length) :
    (memcpy (if len > 0 then memmove buf (data.length : Int) 0 len else buf) data
        (data.length : Int)).take (len + (data.length : Int)).toNat
      = data ++ buf.take len.toNat := by
  have e : (len + (data.length : Int)).toNat = len.toNat + data.length := by omega
  simp only [memcpy, memmove, Int.toNat_ofNat, Int.toNat_zero, List.take_length, e]
  split
  · exact add_content buf data len.toNat (by omega)
  · have hz : len.toNat = 0 := by omega
    rw [hz, Nat.zero_add, List.take_zero, List.append_nil]
    exact take_store_zero buf data (by omega)

/-- C8: for a buffer kind in {text, cipher} and `n ≥ 0`, `rm_data` returns 0
exactly when `n ≤ len`; then the buffer holds the old content without its first
`n` bytes and the length is `len - n`; when `n > len` it returns -1 and the link
is unchanged. -/
theorem rm_data_removes_front (cfg : Config) (ln : Link) (type : BufType) (n : Int)
    (hwf : ln.wf cfg) (hty : type ≠ .other) (hn : 0 ≤ n) :
    ((rm_data ln type n).1 = 0 ↔ n ≤ ln.bufLen type) ∧
    (n ≤ ln.bufLen type →
      (rm_data ln type n).2.bufData type = (ln.bufData type).drop n.toNat ∧
      (rm_data ln type n).2.bufLen type = ln.bufLen type - n) ∧
    (ln.bufLen type < n → (rm_data ln type n).1 = -1 ∧ (rm_data ln type n).2 = ln) := by
  obtain ⟨hts, hcs, htl, hth, hcl, hch⟩ := hwf
  refine ⟨?_, ?_, ?_⟩
  · by_cases h : n ≤ ln.bufLen type
    · cases type
      · simp only [Link.bufLen] at h; simp [rm_data_text_ok ln n h, Link.bufLen, h]
      · simp only [Link.bufLen] at h; simp [rm_data_cipher_ok ln n h, Link.bufLen, h]
      · exact absurd rfl hty
    · simp [rm_data_fail ln type n (not_le.mp h), h]
  · intro h
    cases type
    · simp only [Link.bufLen] at h
      rw [rm_data_text_ok ln n h]
      simp only [Link.bufData, Link.bufLen, Link.textData, and_true]
      exact memmove_front_take ln.text n ln.text_len hn h (by omega)
    · simp only [Link.bufLen] at h
      rw [rm_data_cipher_ok ln n h]
      simp only [Link.bufData, Link.bufLen, Link.cipherData, and_true]
      exact memmove_front_take ln.cipher n ln.cipher_len hn h (by omega)
    · exact absurd rfl hty
  · intro h
    simp [rm_data_fail ln type n h]

/-- C7, refuted at a concrete input: the text buffer holds one byte, the block
has `INT_MAX` bytes and `size = INT_MAX`.  `len + size` exceeds the capacity
32, yet the `int` sum wraps to `INT_MIN`, the test `len + size > TEXT_BUF_SIZE`
does not fire: `add_data` does not return -1, and `text_len` is changed (to
`INT_MIN`) before the bytes are moved.  The `memmove` that follows has its
destination `INT_MAX` bytes behind the start of the buffer. -/
theorem add_data_overflow :
    (List.replicate 2147483647 0).length = 2147483647 ∧
    (lnText [1]).text_len = 1 ∧
    (lnText [1]).text_len + 2147483647 > cfg0.TEXT_BUF_SIZE ∧
    wrapInt ((lnText [1]).text_len + 2147483647) = -2147483648 ∧
    (add_data cfg0 (lnText [1]) .text (List.replicate 2147483647 0) 2147483647).1 ≠ -1 ∧
    (add_data cfg0 (lnText [1]) .text (List.replicate 2147483647 0) 2147483647).2.text_len
      = -2147483648 := by
  refine ⟨List.length_replicate _ _, by decide, by decide, by decide, by decide, by decide⟩

/-- C7 as amended: for a buffer kind in {text, cipher} and a source block of
`size` bytes with `len + size ≤ INT_MAX`, `add_data` returns 0 exactly when
`len + size ≤ capacity`; then the buffer holds the block followed by the old
content and the length is `len + size`; otherwise it returns -1 and the link
(both buffers, both lengths) is unchanged. -/
theorem add_data_prepends (cfg : Config) (ln : Link) (type : BufType) (data : List Nat)
    (size : Int) (hwf : ln.wf cfg) (hty : type ≠ .other) (hsize : size = (data.length : Int))
    (hrep : ln.bufLen type + size ≤ INT_MAX) :
    ((add_data cfg ln type data size).1 = 0 ↔ ln.bufLen type + size ≤ cfg.cap type) ∧
    (ln.bufLen type + size ≤ cfg.cap type →
      (add_data cfg ln type data size).2.bufData type = data ++ ln.bufData type ∧
      (add_data cfg ln type data size).2.bufLen type = ln.bufLen type + size) ∧
    (ln.bufLen type + size > cfg.cap type →
      (add_data cfg ln type data size).1 = -1 ∧ (add_data cfg ln type data size).2 = ln) := by
  obtain ⟨hts, hcs, htl, hth, hcl, hch⟩ := hwf
  subst hsize
  have hw : wrapInt (ln.bufLen type + (data.length : Int))
      = ln.bufLen type + (data.length : Int) := by
    apply wrapInt_eq _ _ hrep
    cases type
    · simp only [Link.bufLen]; omega
    · simp only [Link.bufLen]; omega
    · simp only [Link.bufLen]; omega
  refine ⟨?_, ?_, ?_⟩
  · by_cases h : ln.bufLen type + (data.length : Int) ≤ cfg.cap type
    · cases type
      · simp only [Link.bufLen, Config.cap] at h hw
        simp [add_data_text_ok cfg ln data _ hw h, Link.bufLen, Config.cap, h]
      · simp only [Link.bufLen, Config.cap] at h hw
        simp [add_data_cipher_ok cfg ln data _ hw h, Link.bufLen, Config.cap, h]
      · exact absurd rfl hty
    · simp [add_data_fail cfg ln type data _ hw (not_le.mp h), h]
  · intro h
    cases type
    · simp only [Link.bufLen, Config.cap] at h hw
      rw [add_data_text_ok cfg ln data _ hw h]
      simp only [Link.bufData, Link.bufLen, Link.textData, and_true]
      exact prepend_take ln.text data ln.text_len htl (by omega)
    · simp only [Link.bufLen, Config.cap] at h hw
      rw [add_data_cipher_ok cfg ln data _ hw h]
      simp only [Link.bufData, Link.bufLen, Link.cipherData, and_true]
      exact prepend_take ln.cipher data ln.cipher_len hcl (by omega)
    · exact absurd rfl hty
  · intro h
    simp [add_data_fail cfg ln type data _ hw h]

theorem lnText_wf (bytes : List Nat) (h : bytes.length ≤ 32) : (lnText bytes).wf cfg0 := by
  refine ⟨?_, ?_, ?_, ?_, ?_, ?_⟩
  · simp [lnText, store_length, ln0, cfg0]
  · simp [lnText, ln0, cfg0]
  · simp [lnText]
  · simp only [lnText, cfg0]; omega
  · simp [lnText, ln0]
  · simp [lnText, ln0, cfg0]

/-- C8 at a concrete input: removing 2 bytes from the text buffer `[1, 2, 3]`
succeeds and leaves `[3]`. -/
theorem rm_data_removes_front_witness :
    (rm_data (lnText [1, 2, 3]) .text 2).1 = 0 ∧
    (rm_data (lnText [1, 2, 3]) .text 2).2.bufData .text = [3] ∧
    (rm_data (lnText [1, 2, 3]) .text 2).2.bufLen .text = 1 :=
  have h := rm_data_removes_front cfg0 (lnText [1, 2, 3]) .text 2
    (lnText_wf _ (by decide)) (by decide) (by decide)
  ⟨h.1.mpr (by decide), by rw [(h.2.1 (by decide)).1]; decide,
    by rw [(h.2.1 (by decide)).2]; decide⟩

/-- C7 as amended, at a concrete input: putting `[7, 8]` into the text buffer
`[1, 2, 3]` succeeds and leaves `[7, 8, 1, 2, 3]`. -/
theorem add_data_prepends_witness :
    (add_data cfg0 (lnText [1, 2, 3]) .text [7, 8] 2).1 = 0 ∧
    (add_data cfg0 (lnText [1, 2, 3]) .text [7, 8] 2).2.bufData .text = [7, 8, 1, 2, 3] ∧
    (add_data cfg0 (lnText [1, 2, 3]) .text [7, 8] 2).2.bufLen .text = 5 :=
  have h := add_data_prepends cfg0 (lnText [1, 2, 3]) .text [7, 8] 2
    (lnText_wf _ (by decide)) (by decide) (by decide) (by decide)
  ⟨h.1.mpr (by decide), by rw [(h.2.1 (by decide)).1]; decide,
    by rw [(h.2.1 (by decide)).2]; decide⟩

/-! ## SOCKS5 method negotiation -/

theorem auth_loop_zero_iff (text : List Nat) (n : Nat) :
    auth_loop text n = 0 ↔ ∃ i, i < n ∧ rd text (2 + i) = 0 := by
  induction n with
  | zero => simp [auth_loop]
  | succ k ih =>
    unfold auth_loop
    by_cases h : rd text (2 + k) = 0
    · simp only [h, if_true, true_iff]
      exact ⟨k, Nat.lt_succ_self k, h⟩
    · simp only [h, if_false, ih]
      constructor
      · rintro ⟨i, hi, hz⟩
        exact ⟨i, Nat.lt_succ_of_lt hi, hz⟩
      · rintro ⟨i, hi, hz⟩
        have hne : i ≠ k := fun e => h (e ▸ hz)
        exact ⟨i, by omega, hz⟩

theorem auth_loop_cases (text : List Nat) (n : Nat) :
    auth_loop text n = 0 ∨ auth_loop text n = -1 := by
  induction n with
  | zero => simp [auth_loop]
  | succ k ih =>
    unfold auth_loop
    split
    · exact Or.inl rfl
    · exact ih

/-- C3: `check_socks5_auth_header` returns 0 exactly when VER = 5,
NMETHODS + 2 = text_len and one of the NMETHODS method bytes is 0x00; in every
other case it returns -1; the link is the same after the call. -/
theorem check_socks5_auth_header_iff (ln : Link) :
    ((check_socks5_auth_header ln).1 = 0 ↔
      rd ln.text 0 = 5 ∧ (rd ln.text 1 : Int) + 2 = ln.text_len ∧
        ∃ i, i < rd ln.text 1 ∧ rd ln.text (2 + i) = 0) ∧
    ((check_socks5_auth_header ln).1 = 0 ∨ (check_socks5_auth_header ln).1 = -1) ∧
    (check_socks5_auth_header ln).2 = ln := by
  by_cases h3 : ln.text_len < 3
  · have e : check_socks5_auth_header ln = (-1, ln) := by
      simp [check_socks5_auth_header, h3]
    rw [e]
    refine ⟨⟨fun h => absurd (show (-1 : Int) = 0 from h) (by decide), ?_⟩, Or.inr rfl, rfl⟩
    rintro ⟨_, hlen, i, hi, _⟩
    omega
  · by_cases hv : rd ln.text 0 = 5
    · by_cases hn : (rd ln.text 1 : Int) + 2 = ln.text_len
      · have e : check_socks5_auth_header ln = (auth_loop ln.text (rd ln.text 1), ln) := by
          simp [check_socks5_auth_header, h3, hv, hn]
        rw [e]
        refine ⟨?_, auth_loop_cases _ _, rfl⟩
        rw [auth_loop_zero_iff]
        exact ⟨fun h => ⟨hv, hn, h⟩, fun h => h.2.2⟩
      · have e : check_socks5_auth_header ln = (-1, ln) := by
          simp [check_socks5_auth_header, h3, hv, hn]
        rw [e]
        exact ⟨⟨fun h => absurd (show (-1 : Int) = 0 from h) (by decide), fun h => absurd h.2.1 hn⟩, Or.inr rfl, rfl⟩
    · have e : check_socks5_auth_header ln = (-1, ln) := by
        simp [check_socks5_auth_header, h3, hv]
      rw [e]
      exact ⟨⟨fun h => absurd (show (-1 : Int) = 0 from h) (by decide), fun h => absurd h.1 hv⟩, Or.inr rfl, rfl⟩

/-! ## `connect_server` -/

theorem connect_loop_ret (env : Env) (w1 w2 : World) (ln1 ln2 : Link) (type : Nat)
    (cands : List Addrinfo) :
    (connect_loop env w1 ln1 type cands).ret = (connect_loop env w2 ln2 type cands).ret := by
  induction cands with
  | nil => rfl
  | cons ai rest ih =>
    unfold connect_loop
    by_cases ht : ai.ai_socktype = type
    · simp only [ht, if_true]
      split_ifs <;> rfl
    · simp only [ht, if_false]
      exact ih

theorem connect_server_ret_congr (env : Env) (w1 w2 : World) (ln1 ln2 : Link)
    (h1 : ln1.server_sockfd = ln2.server_sockfd) (h2 : ln1.state = ln2.state)
    (h3 : ln1.server = ln2.server) :
    (connect_server env w1 ln1).ret = (connect_server env w2 ln2).ret := by
  unfold connect_server
  rw [h1, h2, h3]
  by_cases hs : ln2.server_sockfd = -1
  · simp only [hs, ne_eq, not_true_eq_false, if_false]
    exact connect_loop_ret _ _ _ _ _ _ _
  · simp [hs]

theorem connect_loop_cases (env : Env) (w : World) (ln : Link) (type : Nat)
    (cands : List Addrinfo) :
    (connect_loop env w ln type cands).ret = 0 ∨ (connect_loop env w ln type cands).ret = -1 := by
  induction cands with
  | nil => exact Or.inr rfl
  | cons ai rest ih =>
    unfold connect_loop
    by_cases ht : ai.ai_socktype = type
    · simp only [ht, if_true]
      split_ifs <;> simp
    · simp only [ht, if_false]
      exact ih

theorem connect_server_cases (env : Env) (w : World) (ln : Link) :
    (connect_server env w ln).ret = 0 ∨ (connect_server env w ln).ret = -1 := by
  unfold connect_server
  by_cases hs : ln.server_sockfd = -1
  · simp only [hs, ne_eq, not_true_eq_false, if_false]
    exact connect_loop_cases _ _ _ _ _
  · simp [hs]

theorem connect_loop_buffers (env : Env) (w : World) (ln : Link) (type : Nat)
    (cands : List Addrinfo) :
    sameBuffers (connect_loop env w ln type cands).ln ln := by
  induction cands with
  | nil => simp [connect_loop, sameBuffers]
  | cons ai rest ih =>
    unfold connect_loop
    by_cases ht : ai.ai_socktype = type
    · simp only [ht, if_true]
      split_ifs <;> simp [sameBuffers]
    · simp only [ht, if_false]
      exact ih

theorem connect_server_buffers (env : Env) (w : World) (ln : Link) :
    sameBuffers (connect_server env w ln).ln ln := by
  unfold connect_server
  by_cases hs : ln.server_sockfd = -1
  · simp only [hs, ne_eq, not_true_eq_false, if_false]
    exact connect_loop_buffers _ _ _ _ _
  · simp [hs, sameBuffers]

/-! ## The SOCKS5 CONNECT request -/

theorem specHeaderLen_pos (atyp L : Nat) (h : Int) (hh : specHeaderLen atyp L = some h) :
    4 ≤ h := by
  unfold specHeaderLen at hh
  split_ifs at hh <;> simp at hh <;> omega

theorem cmd_finish_eq (env : Env) (w : World) (ln : Link) (h : Int) (h3 : 3 ≤ ln.text_len) :
    cmd_finish env w ln h = connect_server env w
      { ln with ss_header_len := h, text_len := ln.text_len - 3,
                text := memmove ln.text 0 3 (ln.text_len - 3),
                cipher := memcpy ln.cipher (memmove ln.text 0 3 (ln.text_len - 3)) h } := by
  unfold cmd_finish
  simp only [rm_data_text_ok { ln with ss_header_len := h } 3 h3]
  simp

theorem cmd_header_valid (env : Env) (w : World) (ln : Link) (h : Int)
    (hv : rd ln.text 0 = 5) (hc : rd ln.text 1 = 0x01) (hr : rd ln.text 2 = 0)
    (hh : specHeaderLen (rd ln.text 3) (rd ln.text 4) = some h) (hlen : 3 + h ≤ ln.text_len) :
    check_socks5_cmd_header env w ln = cmd_finish env w ln h := by
  unfold specHeaderLen at hh
  split_ifs at hh with h1 h3 h4
  · cases hh
    simp only [check_socks5_cmd_header, SOCKS5_CONNECT, SOCKS5_ADDR_IPV4, hv, hc, hr, h1]
    simp only [ne_eq, not_true_eq_false, if_false, if_true]
    split_ifs with hs
    · omega
    · rfl
  · cases hh
    simp only [check_socks5_cmd_header, SOCKS5_CONNECT, SOCKS5_ADDR_IPV4, SOCKS5_ADDR_DOMAIN,
      hv, hc, hr, h3]
    simp only [ne_eq, not_true_eq_false, if_false, if_true, OfNat.ofNat_ne_one]
    split_ifs with hs
    · omega
    · congr 1; omega
  · cases hh
    simp only [check_socks5_cmd_header, SOCKS5_CONNECT, SOCKS5_ADDR_IPV4, SOCKS5_ADDR_DOMAIN,
      SOCKS5_ADDR_IPV6, hv, hc, hr, h4]
    simp only [ne_eq, not_true_eq_false, if_false, if_true, OfNat.ofNat_ne_one,
      Nat.reduceEqDiff]
    split_ifs with hs
    · omega
    · rfl

theorem cmd_header_invalid (env : Env) (w : World) (ln : Link) (h : ¬ validConnect ln) :
    (check_socks5_cmd_header env w ln).ret = -1 := by
  unfold validConnect at h
  unfold check_socks5_cmd_header
  simp only [SOCKS5_CONNECT, SOCKS5_UDP_ASSOCIATE, SOCKS5_ADDR_IPV4,
    SOCKS5_ADDR_DOMAIN, SOCKS5_ADDR_IPV6, ne_eq]
  split_ifs with hv hc hr h1 hs1 h3 hs3 h4 hs4 hu <;> try rfl
  · exfalso
    exact h ⟨hv, hc, hr, 7, by simp [specHeaderLen, h1], by omega⟩
  · exfalso
    exact h ⟨hv, hc, hr, 4 + (rd ln.text 4 : Int),
      by simp [specHeaderLen, h3], by omega⟩
  · exfalso
    exact h ⟨hv, hc, hr, 19, by simp [specHeaderLen, h4], by omega⟩

/-- C2: when `connect_server` succeeds on the link, `check_socks5_cmd_header`
returns 0 exactly when VER = 5, CMD = 1, RSV = 0, ATYP is 1, 3 or 4 and
`text_len ≥ 3 + h` (h = 7, `4 + L`, 19); in every other case it returns -1. -/
theorem check_socks5_cmd_header_iff (env : Env) (w : World) (ln : Link)
    (hconn : (connect_server env w ln).ret = 0) :
    ((check_socks5_cmd_header env w ln).ret = 0 ↔ validConnect ln) ∧
    ((check_socks5_cmd_header env w ln).ret = 0 ∨
      (check_socks5_cmd_header env w ln).ret = -1) := by
  by_cases hvc : validConnect ln
  · obtain ⟨hv, hc, hr, h, hh, hlen⟩ := id hvc
    have h4 := specHeaderLen_pos _ _ _ hh
    have e : (check_socks5_cmd_header env w ln).ret = 0 := by
      rw [cmd_header_valid env w ln h hv hc hr hh hlen, cmd_finish_eq env w ln h (by omega),
        ← hconn]
      exact connect_server_ret_congr _ _ _ _ _ rfl rfl rfl
    exact ⟨⟨fun _ => hvc, fun _ => e⟩, Or.inl e⟩
  · have e := cmd_header_invalid env w ln hvc
    refine ⟨⟨fun h0 => ?_, fun hv => absurd hv hvc⟩, Or.inr e⟩
    rw [e] at h0
    exact absurd h0 (by decide)

theorem memcpy_after_shift (text cipher : List Nat) (n len h : Nat) (h3 : n + h ≤ len)
    (hl : len ≤ text.length) (hc : h ≤ cipher.length) :
    load (store cipher 0 ((store text 0 (load text n (len - n))).take h)) 0 h
      = load text n h := by
  have hshift := rm_content text n len (by omega) hl
  have hsrc : (store text 0 (load text n (len - n))).take h = load text n h := by
    have : (store text 0 (load text n (len - n))).take h
        = ((store text 0 (load text n (len - n))).take (len - n)).take h := by
      rw [List.take_take, Nat.min_eq_left (by omega)]
    rw [this, hshift, List.drop_take, List.take_take, Nat.min_eq_left (by omega)]
    rfl
  have hlen : (load text n h).length = h := load_length text n h (by omega)
  rw [hsrc]
  have := take_store_zero cipher (load text n h) (by omega)
  rw [hlen] at this
  simpa [load] using this

/-- C1: on a link whose text buffer starts with a valid SOCKS5 CONNECT request
(VER = 5, CMD = 1, RSV = 0, ATYP in {1, 3, 4} with header length `h`,
`text_len ≥ 3 + h`) and on which `connect_server` succeeds,
`check_socks5_cmd_header` returns 0; afterwards `text_len` is 3 less, the text
buffer holds the old content without its first 3 bytes, `ss_header_len = h` and
`cipher[0..h)` equals the old `text[3..3+h)`. -/
theorem check_socks5_cmd_header_consumes (cfg : Config) (env : Env) (w : World) (ln : Link)
    (h : Int) (hwf : ln.wf cfg) (hcap : cfg.TEXT_BUF_SIZE ≤ cfg.CIPHER_BUF_SIZE)
    (hv : rd ln.text 0 = 5) (hc : rd ln.text 1 = 0x01) (hr : rd ln.text 2 = 0)
    (hh : specHeaderLen (rd ln.text 3) (rd ln.text 4) = some h) (hlen : 3 + h ≤ ln.text_len)
    (hconn : (connect_server env w ln).ret = 0) :
    (check_socks5_cmd_header env w ln).ret = 0 ∧
    (check_socks5_cmd_header env w ln).ln.text_len = ln.text_len - 3 ∧
    (check_socks5_cmd_header env w ln).ln.textData = ln.textData.drop 3 ∧
    (check_socks5_cmd_header env w ln).ln.ss_header_len = h ∧
    load (check_socks5_cmd_header env w ln).ln.cipher 0 h.toNat = load ln.text 3 h.toNat := by
  obtain ⟨hts, hcs, htl, hth, hcl, hch⟩ := hwf
  have h4 := specHeaderLen_pos _ _ _ hh
  rw [cmd_header_valid env w ln h hv hc hr hh hlen, cmd_finish_eq env w ln h (by omega)]
  obtain ⟨e1, e2, e3, e4, e5, e6, e7⟩ := connect_server_buffers env w
    { ln with ss_header_len := h, text_len := ln.text_len - 3,
              text := memmove ln.text 0 3 (ln.text_len - 3),
              cipher := memcpy ln.cipher (memmove ln.text 0 3 (ln.text_len - 3)) h }
  refine ⟨?_, e3, ?_, e5, ?_⟩
  · rw [← hconn]
    exact connect_server_ret_congr _ _ _ _ _ rfl rfl rfl
  · simp only [Link.textData, e1, e3]
    exact memmove_front_take ln.text 3 ln.text_len (by omega) (by omega) (by omega)
  · rw [e2]
    simp only [memcpy, memmove, Int.toNat_zero]
    have e : (ln.text_len - 3).toNat = ln.text_len.toNat - (3 : Int).toNat := by omega
    rw [e]
    exact memcpy_after_shift ln.text ln.cipher (3 : Int).toNat ln.text_len.toNat h.toNat
      (by omega) (by omega) (by omega)

/-- C1 at the input of the specification: the request
`[05,01,00,01,127,0,0,1,0,80]` is accepted, three bytes are consumed and the
cipher buffer starts with `[01,127,0,0,1,0,80]`. -/
theorem check_socks5_cmd_header_consumes_witness :
    (check_socks5_cmd_header env0 w0 (lnText [5, 1, 0, 1, 127, 0, 0, 1, 0, 80])).ret = 0 ∧
    (check_socks5_cmd_header env0 w0 (lnText [5, 1, 0, 1, 127, 0, 0, 1, 0, 80])).ln.textData
      = [1, 127, 0, 0, 1, 0, 80] ∧
    (check_socks5_cmd_header env0 w0 (lnText [5, 1, 0, 1, 127, 0, 0, 1, 0, 80])).ln.ss_header_len
      = 7 ∧
    load (check_socks5_cmd_header env0 w0
      (lnText [5, 1, 0, 1, 127, 0, 0, 1, 0, 80])).ln.cipher 0 7 = [1, 127, 0, 0, 1, 0, 80] :=
  have h := check_socks5_cmd_header_consumes cfg0 env0 w0
    (lnText [5, 1, 0, 1, 127, 0, 0, 1, 0, 80]) 7 (lnText_wf _ (by decide)) (by decide)
    (by decide) (by decide) (by decide) (by decide) (by decide) (by decide)
  ⟨h.1, by rw [h.2.2.1]; decide, h.2.2.2.1, by rw [show (7 : Nat) = (7 : Int).toNat from rfl, h.2.2.2.2]; decide⟩

/-- C2 at a concrete input: the IPv4 request `[05,01,00,01,127,0,0,1,0,80]` is
valid and accepted. -/
theorem check_socks5_cmd_header_iff_witness :
    validConnect (lnText [5, 1, 0, 1, 127, 0, 0, 1, 0, 80]) ∧
    (check_socks5_cmd_header env0 w0 (lnText [5, 1, 0, 1, 127, 0, 0, 1, 0, 80])).ret = 0 :=
  have hv : validConnect (lnText [5, 1, 0, 1, 127, 0, 0, 1, 0, 80]) :=
    ⟨by decide, by decide, by decide, 7, by decide, by decide⟩
  ⟨hv, (check_socks5_cmd_header_iff env0 w0 (lnText [5, 1, 0, 1, 127, 0, 0, 1, 0, 80])
    (by decide)).1.mpr hv⟩

/-! ## The shadowsocks header -/

theorem ss_resolve_tcp_ok (cfg : Config) (env : Env) (w w' : World) (ln : Link)
    (st fam : Nat) (addr : List Nat) (port : Nat) (al : Int) (res : List Addrinfo)
    (hwf : ln.wf cfg) (htcp : ln.state &&& SS_UDP = 0) (hal : 0 ≤ al)
    (hlen : 1 + al + 2 ≤ ln.text_len)
    (hres : env.getaddrinfo addr port fam st = some res)
    (hconn : (connect_server env w' { ln with server := res }).ret = 0) :
    (ss_resolve env w ln st fam addr port al).ret = 0 ∧
    (ss_resolve env w ln st fam addr port al).ln.ss_header_len = 1 + al + 2 ∧
    (ss_resolve env w ln st fam addr port al).ln.textData
      = ln.textData.drop (1 + al + 2).toNat ∧
    (ss_resolve env w ln st fam addr port al).ln.text_len = ln.text_len - (1 + al + 2) ∧
    (ss_resolve env w ln st fam addr port al).ln.server = res := by
  obtain ⟨hts, hcs, htl, hth, hcl, hch⟩ := hwf
  unfold ss_resolve
  simp only [hres, htcp, ne_eq, not_true_eq_false, if_false]
  rw [rm_data_text_ok _ _ (by simpa using hlen)]
  simp only [show ¬ ((0 : Int) = -1) by decide, if_false]
  obtain ⟨e1, e2, e3, e4, e5, e6, e7⟩ := connect_server_buffers env
    (w.log (.getaddrinfo addr port fam st))
    { ln with ss_header_len := 1 + al + 2, text_len := ln.text_len - (1 + al + 2),
              text := memmove ln.text 0 (1 + al + 2) (ln.text_len - (1 + al + 2)),
              server := res }
  refine ⟨?_, e5, ?_, e3, e7⟩
  · rw [← hconn]
    exact connect_server_ret_congr _ _ _ _ _ rfl rfl rfl
  · simp only [Link.textData, e1, e3]
    exact memmove_front_take ln.text (1 + al + 2) ln.text_len (by omega) (by omega) (by omega)

theorem lnSrv_wf (bytes : List Nat) (h : bytes.length ≤ 32) : (lnSrv bytes).wf cfg0 := by
  obtain ⟨a, b, c, d, e, f⟩ := lnText_wf bytes h
  exact ⟨a, b, c, d, e, f⟩

theorem connect_loop_calls (env : Env) (w : World) (ln : Link) (type : Nat)
    (cands : List Addrinfo) :
    ∃ rest, (connect_loop env w ln type cands).w.calls = w.calls ++ rest := by
  induction cands with
  | nil => exact ⟨[], by simp [connect_loop]⟩
  | cons ai rest ih =>
    unfold connect_loop
    by_cases ht : ai.ai_socktype = type
    · simp only [ht, if_true]
      split_ifs <;> simp only [World.log, World.poll_set, List.append_assoc] <;>
        exact ⟨_, rfl⟩
    · simp only [ht, if_false]
      exact ih

theorem connect_server_calls (env : Env) (w : World) (ln : Link) :
    ∃ rest, (connect_server env w ln).w.calls = w.calls ++ Call.enter_connect_server :: rest := by
  unfold connect_server
  by_cases hs : ln.server_sockfd = -1
  · simp only [hs, ne_eq, not_true_eq_false, if_false]
    obtain ⟨rest, hr⟩ := connect_loop_calls env (w.log .enter_connect_server) ln
      (if ln.state &&& SS_UDP ≠ 0 then SOCK_DGRAM else SOCK_STREAM) ln.server
    exact ⟨rest, by rw [hr]; simp [World.log]⟩
  · exact ⟨[], by simp [hs, World.log]⟩

theorem ss_resolve_calls (env : Env) (w : World) (ln : Link) (st fam : Nat)
    (addr : List Nat) (port : Nat) (al : Int) :
    ∃ rest, (ss_resolve env w ln st fam addr port al).w.calls
      = w.calls ++ Call.getaddrinfo addr port fam st :: rest := by
  unfold ss_resolve
  cases env.getaddrinfo addr port fam st with
  | none => exact ⟨[], by simp [World.log]⟩
  | some res =>
    simp only
    split_ifs
    · obtain ⟨rest, hr⟩ := connect_server_calls env (w.log (.getaddrinfo addr port fam st))
        { ln with ss_header_len := ln.text_len, server := res }
      exact ⟨Call.enter_connect_server :: rest, by rw [hr]; simp [World.log]⟩
    · exact ⟨[], by simp [World.log]⟩
    · obtain ⟨rest, hr⟩ := connect_server_calls env (w.log (.getaddrinfo addr port fam st))
        { (rm_data { ln with ss_header_len := 1 + al + 2 } .text (1 + al + 2)).2 with
          server := res }
      exact ⟨Call.enter_connect_server :: rest, by rw [hr]; simp [World.log]⟩

/-- C4: on a TCP link whose text buffer holds a complete shadowsocks header
(ATYP 1, 3 or 4 with `addr_len` = 4, `dst[0] + 1`, 16), when the one lookup the
header asks for succeeds (for ATYP 1 and 4 the conversion of the 4 resp. 16
address bytes and the resolver on its result, for ATYP 3 the resolver on the
`dst[0]` name bytes, each with the port taken from the two bytes after the
address, high byte first, and socket type `SOCK_STREAM`) and `connect_server` on
the resolver's answer succeeds, `check_ss_header` returns 0, sets
`ss_header_len = 1 + addr_len + 2` and removes exactly that many bytes from the
front of the text buffer; the link keeps the resolver's answer, and the
resolver was called with exactly this host, port, family and socket type. -/
theorem check_ss_header_consumes (cfg : Config) (env : Env) (w : World) (ln : Link)
    (al : Int) (fam : Nat) (host : List Nat) (port : Nat) (res : List Addrinfo)
    (hwf : ln.wf cfg) (htcp : ln.state &&& SS_UDP = 0)
    (hal : specAddrLen (rd ln.text 0) (rd ln.text 1) = some al)
    (hlen : 1 + al + 2 ≤ ln.text_len)
    (hhost :
      (rd ln.text 0 = 1 ∧ fam = AF_INET ∧
        env.inet_ntop AF_INET ((ln.text.drop 1).take 4) = some host ∧
        port = rd ln.text 5 * 256 + rd ln.text 6) ∨
      (rd ln.text 0 = 3 ∧ fam = AF_UNSPEC ∧
        host = ((ln.text.drop 2).take (rd ln.text 1)).takeWhile (fun b => b != 0) ∧
        port = rd ln.text (rd ln.text 1 + 2) * 256 + rd ln.text (rd ln.text 1 + 3)) ∨
      (rd ln.text 0 = 4 ∧ fam = AF_INET6 ∧
        env.inet_ntop AF_INET6 ((ln.text.drop 1).take 16) = some host ∧
        port = rd ln.text 17 * 256 + rd ln.text 18))
    (hres : env.getaddrinfo host port fam SOCK_STREAM = some res)
    (hconn : (connect_server env w { ln with server := res }).ret = 0) :
    (check_ss_header env w ln).ret = 0 ∧
    (check_ss_header env w ln).ln.ss_header_len = 1 + al + 2 ∧
    (check_ss_header env w ln).ln.textData = ln.textData.drop (1 + al + 2).toNat ∧
    (check_ss_header env w ln).ln.text_len = ln.text_len - (1 + al + 2) ∧
    (check_ss_header env w ln).ln.server = res ∧
    Call.getaddrinfo host port fam SOCK_STREAM ∈ (check_ss_header env w ln).w.calls := by
  have hst : (if ln.state &&& SS_UDP ≠ 0 then SOCK_DGRAM else SOCK_STREAM) = SOCK_STREAM := by
    rw [if_neg (by simp [htcp])]
  have fin : ∀ (w1 : World) (a : Int), 0 ≤ a → 1 + a + 2 ≤ ln.text_len →
      check_ss_header env w ln = ss_resolve env w1 ln SOCK_STREAM fam host port a →
      (check_ss_header env w ln).ret = 0 ∧
      (check_ss_header env w ln).ln.ss_header_len = 1 + a + 2 ∧
      (check_ss_header env w ln).ln.textData = ln.textData.drop (1 + a + 2).toNat ∧
      (check_ss_header env w ln).ln.text_len = ln.text_len - (1 + a + 2) ∧
      (check_ss_header env w ln).ln.server = res ∧
      Call.getaddrinfo host port fam SOCK_STREAM ∈ (check_ss_header env w ln).w.calls := by
    intro w1 a ha hl e
    rw [e]
    obtain ⟨r1, r2, r3, r4, r5⟩ := ss_resolve_tcp_ok cfg env w1 w ln SOCK_STREAM fam host port a
      res hwf htcp ha hl hres hconn
    obtain ⟨rest, hr⟩ := ss_resolve_calls env w1 ln SOCK_STREAM fam host port a
    exact ⟨r1, r2, r3, r4, r5, by rw [hr]; simp⟩
  unfold specAddrLen at hal
  rcases hhost with ⟨h1, hf, hn, hp⟩ | ⟨h3, hf, hh, hp⟩ | ⟨h4, hf, hn, hp⟩
  · rw [if_pos h1] at hal
    cases hal
    subst hf hp
    refine fin (w.log (.inet_ntop AF_INET (load ln.text 1 4))) 4 (by decide) hlen ?_
    have hn' : env.inet_ntop AF_INET (load ln.text 1 4) = some host := hn
    simp only [check_ss_header, SOCKS5_ADDR_IPV4, h1, if_true, hn', hst]
    rw [if_neg (show ¬ ln.text_len < 7 by omega)]
    rfl
  · rw [if_neg (by omega), if_pos h3] at hal
    cases hal
    subst hf hp hh
    refine fin w ((rd ln.text 1 : Int) + 1) (by omega) hlen ?_
    simp only [check_ss_header, SOCKS5_ADDR_IPV4, SOCKS5_ADDR_DOMAIN, h3, if_true,
      if_false, OfNat.ofNat_ne_one, Nat.reduceEqDiff, hst]
    rw [if_neg (show ¬ ln.text_len < 1 + 1 + (rd ln.text 1 : Int) + 2 by omega)]
    simp only [Int.toNat_ofNat, cstr, load, ntohs_at]
    rw [show 1 + rd ln.text 1 + 1 + 1 = rd ln.text 1 + 3 by omega,
      show 1 + rd ln.text 1 + 1 = rd ln.text 1 + 2 by omega]
  · rw [if_neg (by omega), if_neg (by omega), if_pos h4] at hal
    cases hal
    subst hf hp
    refine fin (w.log (.inet_ntop AF_INET6 (load ln.text 1 16))) 16 (by decide) hlen ?_
    have hn' : env.inet_ntop AF_INET6 (load ln.text 1 16) = some host := hn
    simp only [check_ss_header, SOCKS5_ADDR_IPV4, SOCKS5_ADDR_DOMAIN, SOCKS5_ADDR_IPV6,
      h4, if_true, if_false, hn', OfNat.ofNat_ne_one, Nat.reduceEqDiff, hst]
    rfl

/-- C4 at the input of the specification, in an environment whose resolver
knows only `example.com`, port 443: the header of `example.com:443` followed by
the payload `GET`; `ss_header_len` becomes 15, the text buffer is left with the
payload, and the only lookup is that of `example.com`, port 443. -/
theorem check_ss_header_consumes_witness :
    (check_ss_header envDns w0 (lnSrv [3, 11, 101, 120, 97, 109, 112, 108, 101, 46, 99, 111,
      109, 1, 187, 71, 69, 84])).ret = 0 ∧
    (check_ss_header envDns w0 (lnSrv [3, 11, 101, 120, 97, 109, 112, 108, 101, 46, 99, 111,
      109, 1, 187, 71, 69, 84])).ln.ss_header_len = 15 ∧
    (check_ss_header envDns w0 (lnSrv [3, 11, 101, 120, 97, 109, 112, 108, 101, 46, 99, 111,
      109, 1, 187, 71, 69, 84])).ln.textData = [71, 69, 84] ∧
    (check_ss_header envDns w0 (lnSrv [3, 11, 101, 120, 97, 109, 112, 108, 101, 46, 99, 111,
      109, 1, 187, 71, 69, 84])).ln.server = [⟨AF_INET, SOCK_STREAM, [93, 184, 216, 34, 1, 187]⟩] ∧
    Call.getaddrinfo [101, 120, 97, 109, 112, 108, 101, 46, 99, 111, 109] 443 AF_UNSPEC
      SOCK_STREAM ∈ (check_ss_header envDns w0 (lnSrv [3, 11, 101, 120, 97, 109, 112, 108,
        101, 46, 99, 111, 109, 1, 187, 71, 69, 84])).w.calls :=
  have h := check_ss_header_consumes cfg0 envDns w0 (lnSrv [3, 11, 101, 120, 97, 109, 112,
    108, 101, 46, 99, 111, 109, 1, 187, 71, 69, 84]) 12 AF_UNSPEC
    [101, 120, 97, 109, 112, 108, 101, 46, 99, 111, 109] 443
    [⟨AF_INET, SOCK_STREAM, [93, 184, 216, 34, 1, 187]⟩]
    (lnSrv_wf _ (by decide)) (by decide) (by decide) (by decide)
    (Or.inr (Or.inl ⟨by decide, rfl, by decide, by decide⟩)) (by decide) (by decide)
  ⟨h.1, h.2.1, by rw [h.2.2.1]; decide, h.2.2.2.2.1, h.2.2.2.2.2⟩

/-- The short-buffer check of the IPv4 and domain branches of `check_ss_header`:
with ATYP 1 and `text_len < 7`, or ATYP 3 and `text_len < 4 + dst[0]`, the
function returns -1 and neither the world nor the link changes. -/
theorem check_ss_header_short_v4_domain (env : Env) (w : World) (ln : Link)
    (h : (rd ln.text 0 = 1 ∧ ln.text_len < 7) ∨
         (rd ln.text 0 = 3 ∧ ln.text_len < 1 + 1 + (rd ln.text 1 : Int) + 2)) :
    (check_ss_header env w ln).ret = -1 ∧ (check_ss_header env w ln).w = w ∧
    (check_ss_header env w ln).ln = ln := by
  rcases h with ⟨h1, hs⟩ | ⟨h3, hs⟩
  · simp [check_ss_header, SOCKS5_ADDR_IPV4, h1, hs]
  · simp only [check_ss_header, SOCKS5_ADDR_IPV4, SOCKS5_ADDR_DOMAIN, h3, if_true, if_false,
      OfNat.ofNat_ne_one, Nat.reduceEqDiff]
    rw [if_pos hs]
    exact ⟨rfl, rfl, rfl⟩

/-- The IPv6 branch of `check_ss_header` has no such check: whatever
`text_len` is, the address conversion is called first, and the resolver next
when the conversion succeeds. -/
theorem check_ss_header_v6_calls (env : Env) (w : World) (ln : Link)
    (h4 : rd ln.text 0 = 4) :
    ∃ rest, (check_ss_header env w ln).w.calls
      = w.calls ++ Call.inet_ntop AF_INET6 (load ln.text 1 16) :: rest := by
  simp only [check_ss_header, SOCKS5_ADDR_IPV4, SOCKS5_ADDR_DOMAIN, SOCKS5_ADDR_IPV6,
    h4, if_true, if_false, OfNat.ofNat_ne_one, Nat.reduceEqDiff]
  cases hn : env.inet_ntop AF_INET6 (load ln.text 1 16) with
  | none => exact ⟨[], by simp [World.log]⟩
  | some addr =>
    simp only
    obtain ⟨rest, hr⟩ := ss_resolve_calls env
      (w.log (.inet_ntop AF_INET6 (load ln.text 1 16))) ln
      (if ln.state &&& SS_UDP ≠ 0 then SOCK_DGRAM else SOCK_STREAM) AF_INET6 addr
      (ntohs_at ln.text (1 + 16)) 16
    exact ⟨Call.getaddrinfo addr (ntohs_at ln.text (1 + 16)) AF_INET6
      (if ln.state &&& SS_UDP ≠ 0 then SOCK_DGRAM else SOCK_STREAM) :: rest,
      by rw [hr]; simp [World.log]⟩

/-- C6 at an input it fails on: an IPv6 header of which only the ATYP byte has
arrived.  `check_ss_header` returns -1 only after the address conversion and
the resolver have been called, and `ss_header_len` has changed from 0 to 19. -/
theorem check_ss_header_ipv6_short :
    (lnSrv [4]).text_len = 1 ∧ (lnSrv [4]).ss_header_len = 0 ∧
    (check_ss_header env0 w0 (lnSrv [4])).ret = -1 ∧
    (check_ss_header env0 w0 (lnSrv [4])).w.calls
      = [Call.inet_ntop AF_INET6 (List.replicate 16 0),
         Call.getaddrinfo (List.replicate 16 0) 0 AF_INET6 SOCK_STREAM] ∧
    (check_ss_header env0 w0 (lnSrv [4])).ln.ss_header_len = 19 := by
  decide

/-! ## Short reads -/

/-- C5, refuted at concrete inputs: each SOCKS5 parser gives the too-short
prefix `[05,01]` the very result it gives a request with VER = 4. -/
theorem short_read_same_result :
    (check_socks5_auth_header (lnText [5, 1])).1
      = (check_socks5_auth_header (lnText [4, 1, 0])).1 ∧
    (check_socks5_cmd_header env0 w0 (lnText [5, 1])).ret
      = (check_socks5_cmd_header env0 w0 (lnText [4, 1, 0, 1, 127, 0, 0, 1, 0, 80])).ret := by
  decide

theorem rd_take (l : List Nat) (n i : Nat) (h : i < n) : rd (l.take n) i = rd l i := by
  simp [rd, List.getD_eq_getElem?_getD, List.getElem?_take, h]

theorem shortOf_rd (ln full : Link) (h : shortOf ln full) (i : Nat)
    (hi : (i : Int) < ln.text_len) : rd ln.text i = rd full.text i := by
  obtain ⟨h0, hlt, hd⟩ := h
  have e1 : rd ln.text i = rd ln.textData i :=
    (rd_take ln.text ln.text_len.toNat i (by omega)).symm
  rw [e1, hd, rd_take _ _ _ (by omega)]
  exact rd_take full.text full.text_len.toNat i (by omega)

/-- C5 as amended: both SOCKS5 parsers answer a too-short buffer with -1, the
result they also give a request whose VER is not 5.  The method parser returns
-1 when VER ≠ 5, when `text_len < 3`, when `text_len` differs from
`nmethods + 2`, and so on every buffer that holds only a first part of a
request it accepts.  The command parser returns -1 when VER ≠ 5, when
`text_len < 7`, when `text_len < 3 + h` for the header length `h` that the
bytes `atyp`, `dst[0]` announce, and so on every buffer that holds only a first
part of a valid CONNECT request. -/
theorem socks5_short_read_is_failure (env : Env) (w : World) (ln : Link) :
    (rd ln.text 0 ≠ 5 → (check_socks5_auth_header ln).1 = -1) ∧
    (rd ln.text 0 ≠ 5 → (check_socks5_cmd_header env w ln).ret = -1) ∧
    (ln.text_len < 3 → (check_socks5_auth_header ln).1 = -1) ∧
    ((rd ln.text 1 : Int) + 2 ≠ ln.text_len → (check_socks5_auth_header ln).1 = -1) ∧
    (∀ full : Link, (check_socks5_auth_header full).1 = 0 → shortOf ln full →
      (check_socks5_auth_header ln).1 = -1) ∧
    (ln.text_len < 7 → (check_socks5_cmd_header env w ln).ret = -1) ∧
    (∀ h, specHeaderLen (rd ln.text 3) (rd ln.text 4) = some h → ln.text_len < 3 + h →
      (check_socks5_cmd_header env w ln).ret = -1) ∧
    (∀ (full : Link) (h : Int), rd full.text 0 = 5 → rd full.text 1 = 0x01 →
      rd full.text 2 = 0 → specHeaderLen (rd full.text 3) (rd full.text 4) = some h →
      full.text_len = 3 + h → shortOf ln full →
      (check_socks5_cmd_header env w ln).ret = -1) := by
  have hlenmis : (rd ln.text 1 : Int) + 2 ≠ ln.text_len →
      (check_socks5_auth_header ln).1 = -1 := by
    intro hm
    by_cases h3 : ln.text_len < 3
    · simp [check_socks5_auth_header, h3]
    · by_cases hv : rd ln.text 0 = 5
      · simp [check_socks5_auth_header, h3, hv, hm]
      · simp [check_socks5_auth_header, h3, hv]
  have hann : ∀ h, specHeaderLen (rd ln.text 3) (rd ln.text 4) = some h →
      ln.text_len < 3 + h → (check_socks5_cmd_header env w ln).ret = -1 := by
    intro h hh hshort
    apply cmd_header_invalid
    rintro ⟨_, _, _, h', hh', hlen⟩
    rw [hh] at hh'
    cases hh'
    omega
  have h7 : ln.text_len < 7 → (check_socks5_cmd_header env w ln).ret = -1 := by
    intro hs
    apply cmd_header_invalid
    rintro ⟨_, _, _, h', hh', hlen⟩
    have := specHeaderLen_pos _ _ _ hh'
    omega
  refine ⟨?_, ?_, ?_, hlenmis, ?_, h7, hann, ?_⟩
  · intro hv
    by_cases h3 : ln.text_len < 3
    · simp [check_socks5_auth_header, h3]
    · simp [check_socks5_auth_header, h3, hv]
  · intro hv
    exact cmd_header_invalid env w ln (fun hvc => hv hvc.1)
  · intro h3
    simp [check_socks5_auth_header, h3]
  · intro full hfull hs
    have hf3 : ¬ full.text_len < 3 := by
      intro h
      simp [check_socks5_auth_header, h] at hfull
    have hfl : (rd full.text 1 : Int) + 2 = full.text_len := by
      by_contra h
      by_cases hv : rd full.text 0 = 5
      · simp [check_socks5_auth_header, hf3, hv, h] at hfull
      · simp [check_socks5_auth_header, hf3, hv] at hfull
    by_cases h3 : ln.text_len < 3
    · simp [check_socks5_auth_header, h3]
    · apply hlenmis
      rw [shortOf_rd ln full hs 1 (by omega)]
      have := hs.2.1
      omega
  · intro full h _ _ _ hh hfull hs
    by_cases hs7 : ln.text_len < 7
    · exact h7 hs7
    · apply hann h
      · rw [shortOf_rd ln full hs 3 (by omega), shortOf_rd ln full hs 4 (by omega)]
        exact hh
      · have := hs.2.1
        omega

/-- C5 as amended, at concrete inputs: the method parser returns -1 on
`[05,01]` and on `[05,02,00]`, the first three bytes of the request
`[05,02,00,01]` it accepts; the command parser returns -1 on `[05,01]` and on
`[05,01,00,01,7f]`, both first parts of the CONNECT request for
127.0.0.1:80. -/
theorem socks5_short_read_is_failure_witness :
    (check_socks5_auth_header (lnText [5, 2, 0, 1])).1 = 0 ∧
    (check_socks5_auth_header (lnText [5, 1])).1 = -1 ∧
    (check_socks5_auth_header (lnText [5, 2, 0])).1 = -1 ∧
    (check_socks5_cmd_header env0 w0 (lnText [5, 1])).ret = -1 ∧
    (check_socks5_cmd_header env0 w0 (lnText [5, 1, 0, 1, 127])).ret = -1 :=
  have h := socks5_short_read_is_failure env0 w0 (lnText [5, 1])
  have h2 := socks5_short_read_is_failure env0 w0 (lnText [5, 2, 0])
  have h3 := socks5_short_read_is_failure env0 w0 (lnText [5, 1, 0, 1, 127])
  ⟨by decide, h.2.2.1 (by decide),
    h2.2.2.2.2.1 (lnText [5, 2, 0, 1]) (by decide) ⟨by decide, by decide, by decide⟩,
    h.2.2.2.2.2.2.2 (lnText [5, 1, 0, 1, 127, 0, 0, 1, 0, 80]) 7 (by decide) (by decide)
      (by decide) (by decide) (by decide) ⟨by decide, by decide, by decide⟩,
    h3.2.2.2.2.2.2.2 (lnText [5, 1, 0, 1, 127, 0, 0, 1, 0, 80]) 7 (by decide) (by decide)
      (by decide) (by decide) (by decide) ⟨by decide, by decide, by decide⟩⟩

/-! ## The buffer-bound invariant -/

theorem add_data_bounded (cfg : Config) (ln : Link) (type : BufType) (data : List Nat)
    (size : Int) (hs : 0 ≤ size) (hrep : ln.bufLen type + size ≤ INT_MAX)
    (hb : ln.bounded cfg) :
    (add_data cfg ln type data size).2.bounded cfg := by
  obtain ⟨h1, h2, h3, h4⟩ := hb
  have hw : wrapInt (ln.bufLen type + size) = ln.bufLen type + size := by
    apply wrapInt_eq _ _ hrep
    cases type
    · simp only [Link.bufLen]; omega
    · simp only [Link.bufLen]; omega
    · simp only [Link.bufLen]; omega
  by_cases h : ln.bufLen type + size ≤ cfg.cap type
  · cases type
    · simp only [Link.bufLen, Config.cap] at h hw
      rw [add_data_text_ok cfg ln data size hw h]
      exact ⟨by simp only; omega, by simp only; omega, h3, h4⟩
    · simp only [Link.bufLen, Config.cap] at h hw
      rw [add_data_cipher_ok cfg ln data size hw h]
      exact ⟨h1, h2, by simp only; omega, by simp only; omega⟩
    · exact ⟨h1, h2, h3, h4⟩
  · rw [add_data_fail cfg ln type data size hw (not_le.mp h)]
    exact ⟨h1, h2, h3, h4⟩

theorem rm_data_bounded (cfg : Config) (ln : Link) (type : BufType) (n : Int)
    (hn : 0 ≤ n) (hb : ln.bounded cfg) :
    (rm_data ln type n).2.bounded cfg := by
  obtain ⟨h1, h2, h3, h4⟩ := hb
  cases type
  · unfold rm_data
    simp only
    split_ifs
    · exact ⟨h1, h2, h3, h4⟩
    · exact ⟨by simp only; omega, by simp only; omega, h3, h4⟩
  · unfold rm_data
    simp only
    split_ifs
    · exact ⟨h1, h2, h3, h4⟩
    · exact ⟨h1, h2, by simp only; omega, by simp only; omega⟩
  · exact ⟨h1, h2, h3, h4⟩

theorem do_read_bounded (cfg : Config) (env : Env) (w : World) (sockfd : Int) (ln : Link)
    (type : BufType) (offset : Int) (hcap : cfg.TEXT_BUF_SIZE ≤ cfg.CIPHER_BUF_SIZE)
    (ho : 0 ≤ offset)
    (hlo : -1 ≤ (env.recv sockfd (cfg.TEXT_BUF_SIZE - offset)).1)
    (hhi : (env.recv sockfd (cfg.TEXT_BUF_SIZE - offset)).1 ≤ cfg.TEXT_BUF_SIZE - offset)
    (hb : ln.bounded cfg) :
    (do_read cfg env w sockfd ln type offset).ln.bounded cfg := by
  obtain ⟨h1, h2, h3, h4⟩ := hb
  cases type
  · unfold do_read
    simp only
    split_ifs
    · exact ⟨h1, h2, h3, h4⟩
    · exact ⟨h1, h2, h3, h4⟩
    · exact ⟨h1, h2, h3, h4⟩
    · exact ⟨by simp only; omega, by simp only; omega, h3, h4⟩
  · unfold do_read
    simp only
    split_ifs
    · exact ⟨h1, h2, h3, h4⟩
    · exact ⟨h1, h2, h3, h4⟩
    · exact ⟨h1, h2, h3, h4⟩
    · exact ⟨h1, h2, by simp only; omega, by simp only; omega⟩
  · exact ⟨h1, h2, h3, h4⟩

theorem do_send_bounded (cfg : Config) (env : Env) (w : World) (sockfd : Int) (ln : Link)
    (type : BufType) (offset : Int)
    (hlo : -1 ≤ (env.send sockfd (sendBytes ln type offset)).1)
    (hb : ln.bounded cfg) :
    (do_send env w sockfd ln type offset).ln.bounded cfg := by
  have hrm : ∀ n : Int, 0 ≤ n →
      (rm_data { ln with time := env.now } type n).2.bounded cfg :=
    fun n hn => rm_data_bounded cfg _ type n hn hb
  cases type
  · unfold do_send
    unfold sendBytes at hlo
    simp only [if_true] at hlo ⊢
    split_ifs with c1 c2 c3 c4
    · exact hb
    · exact hb
    · exact hrm _ (by omega)
    · exact hrm _ (by omega)
    · exact hrm _ (by omega)
  · unfold do_send
    unfold sendBytes at hlo
    simp only [show ¬ (BufType.cipher = BufType.text) by decide, if_false] at hlo ⊢
    split_ifs with c1 c2 c3 c4
    · exact hb
    · exact hb
    · exact hrm _ (by omega)
    · exact hrm _ (by omega)
    · exact hrm _ (by omega)
  · exact hb

theorem run_add (cfg : Config) (w : World) (ln : Link) (type : BufType) (data : List Nat)
    (n : Nat) (h : data.length = n) :
    (LinkOp.add type data).run cfg w ln = (add_data cfg ln type data n).2 := by
  subst h; rfl

/-- C10 fails as stated: on the text buffer `[1]` (bounds hold), `add_data` of
a block of `INT_MAX` bytes with the non-negative size `INT_MAX` passes the
capacity test because `1 + INT_MAX` wraps, and sets `text_len` to
`-2147483648` before it moves any byte: the bounds no longer hold. -/
theorem buffer_bounds_overflow :
    (lnText [1]).bounded cfg0 ∧
    (0 : Int) ≤ ((List.replicate 2147483647 0).length : Int) ∧
    ((LinkOp.add .text (List.replicate 2147483647 0)).run cfg0 w0 (lnText [1])).text_len
      = -2147483648 ∧
    ¬ ((LinkOp.add .text (List.replicate 2147483647 0)).run cfg0 w0 (lnText [1])).bounded cfg0 := by
  have e : ((LinkOp.add .text (List.replicate 2147483647 0)).run cfg0 w0 (lnText [1])).text_len
      = -2147483648 := by
    rw [run_add cfg0 w0 (lnText [1]) .text _ 2147483647 (List.length_replicate _ _)]
    decide
  refine ⟨⟨by decide, by decide, by decide, by decide⟩, Int.ofNat_nonneg _, e, ?_⟩
  intro h
  have h1 := h.1
  rw [e] at h1
  exact absurd h1 (by decide)

/-- C10 as amended: if `0 ≤ text_len ≤ TEXT_BUF_SIZE` and `0 ≤ cipher_len ≤
CIPHER_BUF_SIZE` hold before a call of `add_data`, `rm_data`, `do_read` or
`do_send` (with `TEXT_BUF_SIZE ≤ CIPHER_BUF_SIZE`, non-negative sizes, for
`add_data` a size with `len + size ≤ INT_MAX`, offsets in range and
`recv`/`send` results of -1 or at most the requested length), they hold after
it, whether the call succeeds or fails. -/
theorem buffer_bounds_preserved (cfg : Config) (w : World) (ln : Link) (op : LinkOp)
    (hcap : cfg.TEXT_BUF_SIZE ≤ cfg.CIPHER_BUF_SIZE) (hb : ln.bounded cfg)
    (hok : op.ok cfg ln) : (op.run cfg w ln).bounded cfg := by
  cases op with
  | add type data => exact add_data_bounded cfg ln type data _ (by omega) hok hb
  | rm type n => exact rm_data_bounded cfg ln type n hok hb
  | read env sockfd type offset =>
    obtain ⟨ho, _, hlo, hhi⟩ := hok
    exact do_read_bounded cfg env w sockfd ln type offset hcap ho hlo hhi hb
  | send env sockfd type offset =>
    obtain ⟨_, _, hlo, _⟩ := hok
    exact do_send_bounded cfg env w sockfd ln type offset hlo hb

/-- C10 as amended, at concrete calls: `do_read` of two bytes at offset 3
into the text buffer `[1, 2, 3]` keeps the bounds and sets `text_len` to 5;
`add_data` of the block `[7, 8]` keeps them as well. -/
theorem buffer_bounds_preserved_witness :
    ((LinkOp.read env0 5 .text 3).run cfg0 w0 (lnText [1, 2, 3])).bounded cfg0 ∧
    ((LinkOp.read env0 5 .text 3).run cfg0 w0 (lnText [1, 2, 3])).text_len = 5 ∧
    ((LinkOp.add .text [7, 8]).run cfg0 w0 (lnText [1, 2, 3])).bounded cfg0 ∧
    ((LinkOp.add .text [7, 8]).run cfg0 w0 (lnText [1, 2, 3])).text_len = 5 :=
  ⟨buffer_bounds_preserved cfg0 w0 (lnText [1, 2, 3]) (.read env0 5 .text 3) (by decide)
    ⟨by decide, by decide, by decide, by decide⟩
    ⟨by decide, by decide, by decide, by decide⟩, by decide,
   buffer_bounds_preserved cfg0 w0 (lnText [1, 2, 3]) (.add .text [7, 8]) (by decide)
    ⟨by decide, by decide, by decide, by decide⟩
    (show (lnText [1, 2, 3]).bufLen .text + (([7, 8] : List Nat).length : Int) ≤ INT_MAX
      by decide), by decide⟩

/-! ## Order of the bytes in the text buffer -/

theorem memmove_length (buf : List Nat) (d s n : Int) :
    (memmove buf d s n).length = buf.length := store_length _ _ _

theorem memcpy_length (dst src : List Nat) (n : Int) :
    (memcpy dst src n).length = dst.length := store_length _ _ _

theorem add_data_text_wf (cfg : Config) (ln : Link) (data : List Nat) (size : Int)
    (hs : 0 ≤ size) (hrep : ln.text_len + size ≤ INT_MAX) (hwf : ln.wf cfg) :
    (add_data cfg ln .text data size).2.wf cfg := by
  obtain ⟨a, b, c, d⟩ := add_data_bounded cfg ln .text data size hs hrep
    ⟨hwf.text_lo, hwf.text_hi, hwf.cipher_lo, hwf.cipher_hi⟩
  have hw : wrapInt (ln.text_len + size) = ln.text_len + size :=
    wrapInt_eq _ (by have := hwf.text_lo; omega) hrep
  refine ⟨?_, ?_, a, b, c, d⟩
  · by_cases h : ln.text_len + size ≤ cfg.TEXT_BUF_SIZE
    · rw [add_data_text_ok cfg ln data size hw h]
      simp only [memcpy_length]
      split
      · rw [memmove_length]; exact hwf.text_size
      · exact hwf.text_size
    · rw [add_data_fail cfg ln .text data size hw (not_le.mp h)]
      exact hwf.text_size
  · by_cases h : ln.text_len + size ≤ cfg.TEXT_BUF_SIZE
    · rw [add_data_text_ok cfg ln data size hw h]
      exact hwf.cipher_size
    · rw [add_data_fail cfg ln .text data size hw (not_le.mp h)]
      exact hwf.cipher_size

theorem rm_data_text_wf (cfg : Config) (ln : Link) (n : Int)
    (hn : 0 ≤ n) (hwf : ln.wf cfg) : (rm_data ln .text n).2.wf cfg := by
  obtain ⟨a, b, c, d⟩ := rm_data_bounded cfg ln .text n hn
    ⟨hwf.text_lo, hwf.text_hi, hwf.cipher_lo, hwf.cipher_hi⟩
  refine ⟨?_, ?_, a, b, c, d⟩
  · by_cases h : n ≤ ln.text_len
    · rw [rm_data_text_ok ln n h]
      simp only [memmove_length]
      exact hwf.text_size
    · rw [rm_data_fail ln .text n (not_le.mp h)]
      exact hwf.text_size
  · by_cases h : n ≤ ln.text_len
    · rw [rm_data_text_ok ln n h]
      exact hwf.cipher_size
    · rw [rm_data_fail ln .text n (not_le.mp h)]
      exact hwf.cipher_size

theorem add_data_text_content (cfg : Config) (ln : Link) (data : List Nat) (hwf : ln.wf cfg)
    (hrep : ln.text_len + (data.length : Int) ≤ INT_MAX)
    (hok : (add_data cfg ln .text data data.length).1 = 0) :
    (add_data cfg ln .text data data.length).2.textData = data ++ ln.textData := by
  have hw : wrapInt (ln.text_len + (data.length : Int)) = ln.text_len + (data.length : Int) :=
    wrapInt_eq _ (by have := hwf.text_lo; omega) hrep
  have h : ln.text_len + (data.length : Int) ≤ cfg.TEXT_BUF_SIZE := by
    by_contra hc
    rw [add_data_fail cfg ln .text data _ hw (not_le.mp hc)] at hok
    exact absurd (show (-1 : Int) = 0 from hok) (by decide)
  rw [add_data_text_ok cfg ln data _ hw h]
  simp only [Link.textData]
  exact prepend_take ln.text data ln.text_len hwf.text_lo (by have := hwf.text_size; omega)

theorem rm_data_text_content (cfg : Config) (ln : Link) (n : Int) (hwf : ln.wf cfg)
    (hn : 0 ≤ n) (hok : (rm_data ln .text n).1 = 0) :
    (rm_data ln .text n).2.textData = ln.textData.drop n.toNat := by
  have h : n ≤ ln.text_len := by
    by_contra hc
    rw [rm_data_fail ln .text n (not_le.mp hc)] at hok
    exact absurd (show (-1 : Int) = 0 from hok) (by decide)
  rw [rm_data_text_ok ln n h]
  simp only [Link.textData]
  exact memmove_front_take ln.text n ln.text_len hn h
    (by have := hwf.text_size; have := hwf.text_hi; omega)

theorem runText_fifo (cfg : Config) (ops : List TextOp) :
    ∀ (ln : Link) (removed : List Nat) (ln' : Link), ln.wf cfg →
      sizesNonneg ops = true → addsOnEmpty cfg ln ops = true →
      runText cfg ln ops = some (removed, ln') →
      removed ++ ln'.textData = ln.textData ++ addedBytes ops := by
  induction ops with
  | nil =>
    intro ln removed ln' _ _ _ hrun
    simp only [runText, Option.some.injEq, Prod.mk.injEq] at hrun
    obtain ⟨rfl, rfl⟩ := hrun
    simp [addedBytes]
  | cons op ops ih =>
    intro ln removed ln' hwf hnn hemp hrun
    cases op with
    | add data =>
      simp only [addsOnEmpty, Bool.and_eq_true, decide_eq_true_eq] at hemp
      simp only [sizesNonneg] at hnn
      simp only [runText] at hrun
      split_ifs at hrun with hok
      have hrep : ln.text_len + (data.length : Int) ≤ INT_MAX := by
        rw [hemp.1, zero_add]; exact hok.1
      have hwf1 := add_data_text_wf cfg ln data data.length (by omega) hrep hwf
      have := ih _ removed ln' hwf1 hnn hemp.2 hrun
      rw [this, add_data_text_content cfg ln data hwf hrep hok.2]
      have he : ln.textData = [] := by simp [Link.textData, hemp.1]
      simp [he, addedBytes]
    | rm n =>
      simp only [addsOnEmpty] at hemp
      simp only [sizesNonneg, Bool.and_eq_true, decide_eq_true_eq] at hnn
      simp only [runText] at hrun
      split_ifs at hrun with hok
      cases hr : runText cfg (rm_data ln .text n).2 ops with
      | none => simp [hr] at hrun
      | some r =>
        obtain ⟨r1, l1⟩ := r
        simp only [hr, Option.map_some', Option.some.injEq, Prod.mk.injEq] at hrun
        obtain ⟨rfl, rfl⟩ := hrun
        have hwf1 := rm_data_text_wf cfg ln n hnn.1 hwf
        have := ih _ r1 l1 hwf1 hnn.2 hemp hr
        rw [List.append_assoc, this, rm_data_text_content cfg ln n hwf hnn.1 hok,
          ← List.append_assoc, List.take_append_drop]
        simp [addedBytes]

/-- C9, refuted at a concrete run from the empty buffer: after `add_data [1]`
and `add_data [2]` the buffer holds `[2, 1]`, while the blocks given to
`add_data` concatenate to `[1, 2]`. -/
theorem fifo_fails_for_two_adds :
    fifoView (runText cfg0 ln0 [.add [1], .add [2]]) = some [2, 1] ∧
    addedBytes [.add [1], .add [2]] = [1, 2] := by
  decide

/-- C9 as amended: for every sequence of successful `add_data` and `rm_data`
calls on the text buffer, starting from an empty buffer, in which every
`add_data` call meets an empty buffer, the blocks taken out by `rm_data` (in
call order) followed by the bytes still in the buffer equal the blocks given to
`add_data` (in call order). -/
theorem fifo_adds_on_empty (cfg : Config) (ops : List TextOp) (ln : Link)
    (removed : List Nat) (ln' : Link) (hwf : ln.wf cfg) (hstart : ln.text_len = 0)
    (hnn : sizesNonneg ops = true) (hemp : addsOnEmpty cfg ln ops = true)
    (hrun : runText cfg ln ops = some (removed, ln')) :
    removed ++ ln'.textData = addedBytes ops := by
  have h := runText_fifo cfg ops ln removed ln' hwf hnn hemp hrun
  have he : ln.textData = [] := by simp [Link.textData, hstart]
  rw [h, he, List.nil_append]

/-- C9 as amended, at a concrete run: `add [1,2,3]`, `rm 2`, `rm 1`, `add [4]`
takes out `[1,2,3]` and leaves `[4]`. -/
theorem fifo_adds_on_empty_witness :
    fifoView (runText cfg0 ln0 opsDrain) = some (addedBytes opsDrain) :=
  match h : runText cfg0 ln0 opsDrain with
  | some (removed, ln') =>
    congrArg some (fifo_adds_on_empty cfg0 opsDrain ln0 removed ln'
      (lnText_wf [] (by decide)) rfl (by decide) (by decide) h)
  | none => absurd h (by decide)

/-! ## UDP ASSOCIATE -/

theorem lor_land_self (a b : Nat) : (a ||| b) &&& b = b := by
  apply Nat.eq_of_testBit_eq
  intro i
  simp only [Nat.testBit_and, Nat.testBit_or]
  cases a.testBit i <;> cases b.testBit i <;> rfl

/-- C11: when the text buffer starts with VER = 5 and CMD = 0x03 (UDP
ASSOCIATE), `check_socks5_cmd_header` returns -1; the world is unchanged (no
call is made, the table keeps every row), and the link is unchanged (so
`server_sockfd`, both buffers and both lengths are) except for its state, in
which `SS_UDP` is now set. -/
theorem check_socks5_cmd_header_udp (env : Env) (w : World) (ln : Link)
    (hv : rd ln.text 0 = 5) (hc : rd ln.text 1 = 0x03) :
    (check_socks5_cmd_header env w ln).ret = -1 ∧
    (check_socks5_cmd_header env w ln).w = w ∧
    (check_socks5_cmd_header env w ln).ln = { ln with state := ln.state ||| SS_UDP } ∧
    (check_socks5_cmd_header env w ln).ln.server_sockfd = ln.server_sockfd ∧
    (check_socks5_cmd_header env w ln).ln.state &&& SS_UDP = SS_UDP := by
  have e : check_socks5_cmd_header env w ln
      = ⟨-1, w, { ln with state := ln.state ||| SS_UDP }⟩ := by
    simp [check_socks5_cmd_header, hv, hc, SOCKS5_CONNECT, SOCKS5_UDP_ASSOCIATE]
  rw [e]
  exact ⟨rfl, rfl, rfl, rfl, lor_land_self _ _⟩

/-- C11 at a concrete input: a UDP ASSOCIATE request for `127.0.0.1:80` on a
link without server socket. -/
theorem check_socks5_cmd_header_udp_witness :
    (check_socks5_cmd_header env0 w0 (lnText [5, 3, 0, 1, 127, 0, 0, 1, 0, 80])).ret = -1 ∧
    (check_socks5_cmd_header env0 w0 (lnText [5, 3, 0, 1, 127, 0, 0, 1, 0, 80])).w = w0 ∧
    (check_socks5_cmd_header env0 w0
      (lnText [5, 3, 0, 1, 127, 0, 0, 1, 0, 80])).ln.server_sockfd = -1 :=
  have h := check_socks5_cmd_header_udp env0 w0 (lnText [5, 3, 0, 1, 127, 0, 0, 1, 0, 80])
    (by decide) (by decide)
  ⟨h.1, h.2.1, h.2.2.2.1⟩

/-! ## The method-negotiation reply -/

/-- C12: whatever the text buffer held before, `create_socks5_auth_reply`
returns 0 and leaves exactly two bytes in it (`text_len = 2`): `[0x05, 0x00]`
when `ok` is true and `[0x05, 0xFF]` when it is false.  The buffer is the
allocated region of `TEXT_BUF_SIZE ≥ 2` bytes. -/
theorem create_socks5_auth_reply_fixed (cfg : Config) (ln : Link) (ok : Bool)
    (hsz : (ln.text.length : Int) = cfg.TEXT_BUF_SIZE) (h2 : 2 ≤ cfg.TEXT_BUF_SIZE) :
    (create_socks5_auth_reply cfg ln ok).1 = 0 ∧
    (create_socks5_auth_reply cfg ln ok).2.text_len = 2 ∧
    (create_socks5_auth_reply cfg ln ok).2.textData
      = [0x05, if ok then 0x00 else 0xFF] := by
  unfold create_socks5_auth_reply
  simp only
  rw [add_data_text_ok cfg { ln with text_len := 0 } _ 2
    (show wrapInt ((0 : Int) + 2) = 0 + 2 by decide) (by simpa using h2)]
  simp only [show ¬ ((0 : Int) = -1) by decide, if_false, Link.textData, zero_add,
    gt_iff_lt, lt_self_iff_false, SOCKS5_METHOD_NOT_REQUIRED, SOCKS5_METHOD_ERROR, true_and]
  have := take_store_zero ln.text [0x05, if ok then 0x00 else 0xFF] (by simp; omega)
  simpa [memcpy] using this

/-- C12 at the request of the specification: `[05,01,00]` is accepted by
`check_socks5_auth_header` and answered with `[05,00]`. -/
theorem create_socks5_auth_reply_fixed_witness :
    (check_socks5_auth_header (lnText [5, 1, 0])).1 = 0 ∧
    (create_socks5_auth_reply cfg0 (lnText [5, 1, 0]) true).1 = 0 ∧
    (create_socks5_auth_reply cfg0 (lnText [5, 1, 0]) true).2.textData = [5, 0] :=
  have h := create_socks5_auth_reply_fixed cfg0 (lnText [5, 1, 0]) true
    (by decide) (by decide)
  ⟨by decide, h.1, h.2.2⟩

/-! ## The readiness table: rows -/

theorem updRow_none_iff (s : Int) (f : Pollfd → Pollfd) (rows : List Pollfd) :
    updRow s f rows = none ↔ ∀ c ∈ rows, c.fd ≠ s := by
  induction rows with
  | nil => simp [updRow]
  | cons c cs ih =>
    unfold updRow
    by_cases h : c.fd = s
    · simp [h]
    · simp [h, ih]

theorem updRow_some_split (s : Int) (f : Pollfd → Pollfd) (rows r : List Pollfd)
    (h : updRow s f rows = some r) :
    ∃ pre c post, rows = pre ++ c :: post ∧ (∀ x ∈ pre, x.fd ≠ s) ∧ c.fd = s ∧
      r = pre ++ f c :: post := by
  induction rows generalizing r with
  | nil => simp [updRow] at h
  | cons c cs ih =>
    unfold updRow at h
    by_cases hc : c.fd = s
    · simp only [hc, if_true, Option.some.injEq] at h
      exact ⟨[], c, cs, rfl, by simp, hc, by simp [h]⟩
    · simp only [hc, if_false, Option.map_eq_some'] at h
      obtain ⟨r1, hr1, rfl⟩ := h
      obtain ⟨pre, c', post, e1, e2, e3, e4⟩ := ih r1 hr1
      refine ⟨c :: pre, c', post, by simp [e1], ?_, e3, by simp [e4]⟩
      intro x hx
      rcases List.mem_cons.mp hx with rfl | hx
      · exact hc
      · exact e2 x hx

theorem get_events_loop_split (s : Int) (pre : List Pollfd) (c : Pollfd) (post : List Pollfd)
    (hpre : ∀ x ∈ pre, x.fd ≠ s) (hc : c.fd = s) :
    get_events_loop s (pre ++ c :: post) = (c.events : Int) := by
  induction pre with
  | nil => simp [get_events_loop, hc]
  | cons x xs ih =>
    have hx : x.fd ≠ s := hpre x (by simp)
    simp only [List.cons_append, get_events_loop, hx, if_false]
    exact ih (fun y hy => hpre y (by simp [hy]))

theorem getElem?_replaced (pre : List Pollfd) (x y : Pollfd) (post : List Pollfd) (i : Nat)
    (c : Pollfd) (h : (pre ++ x :: post)[i]? = some c) (hne : c ≠ x) :
    (pre ++ y :: post)[i]? = some c := by
  induction pre generalizing i with
  | nil =>
    cases i with
    | zero => simp at h; exact absurd h.symm hne
    | succ j => simpa using h
  | cons p ps ih =>
    cases i with
    | zero => simpa using h
    | succ j =>
      simp only [List.cons_append, List.getElem?_cons_succ] at h ⊢
      exact ih j h

theorem getElem?_tail_cons (c0 : Pollfd) (rows r : List Pollfd) (c : Pollfd)
    (h : ∀ i : Nat, rows[i]? = some c → r[i]? = some c) :
    ∀ i : Nat, (c0 :: rows)[i]? = some c → (c0 :: r)[i]? = some c := by
  intro i hi
  cases i with
  | zero => simpa using hi
  | succ j =>
    simp only [List.getElem?_cons_succ] at hi ⊢
    exact h j hi

theorem poll_set_cases (c0 : Pollfd) (rows : List Pollfd) (fd : Int) (ev : Nat) :
    (∃ pre c post, rows = pre ++ c :: post ∧ (∀ x ∈ pre, x.fd ≠ fd) ∧ c.fd = fd ∧
      poll_set (c0 :: rows) fd ev = (0, c0 :: (pre ++ { c with events := ev } :: post))) ∨
    ((∀ x ∈ rows, x.fd ≠ fd) ∧
      ∃ pre c post, rows = pre ++ c :: post ∧ (∀ x ∈ pre, x.fd ≠ -1) ∧ c.fd = -1 ∧
        poll_set (c0 :: rows) fd ev = (0, c0 :: (pre ++ ⟨fd, ev⟩ :: post))) ∨
    ((∀ x ∈ rows, x.fd ≠ fd) ∧ (∀ x ∈ rows, x.fd ≠ -1) ∧
      poll_set (c0 :: rows) fd ev = (-1, c0 :: rows)) := by
  cases h1 : updRow fd (fun c => { c with events := ev }) rows with
  | some r =>
    obtain ⟨pre, c, post, e1, e2, e3, e4⟩ := updRow_some_split _ _ _ _ h1
    exact Or.inl ⟨pre, c, post, e1, e2, e3, by simp [poll_set, h1, e4]⟩
  | none =>
    have hno := (updRow_none_iff _ _ _).mp h1
    cases h2 : updRow (-1) (fun _ => (⟨fd, ev⟩ : Pollfd)) rows with
    | some r =>
      obtain ⟨pre, c, post, e1, e2, e3, e4⟩ := updRow_some_split _ _ _ _ h2
      exact Or.inr (Or.inl ⟨hno, pre, c, post, e1, e2, e3, by simp [poll_set, h1, h2, e4]⟩)
    | none =>
      have hfree := (updRow_none_iff _ _ _).mp h2
      exact Or.inr (Or.inr ⟨hno, hfree, by simp [poll_set, h1, h2]⟩)

theorem set_split (pre : List Pollfd) (c x : Pollfd) (post : List Pollfd) (b : Pollfd) :
    (b :: (pre ++ c :: post)).set (pre.length + 1) x = b :: (pre ++ x :: post) := by
  rw [List.set_cons_succ]
  congr 1
  induction pre with
  | nil => rfl
  | cons a pre ih => simp only [List.cons_append, List.length_cons, List.set_cons_succ, ih]

theorem take_split_tail (pre : List Pollfd) (c : Pollfd) (post : List Pollfd) (b : Pollfd) :
    ((b :: (pre ++ c :: post)).take (pre.length + 1)).tail = pre := by
  rw [List.take_succ_cons, List.tail_cons]
  exact List.take_left' rfl

theorem getElem?_split (pre : List Pollfd) (c : Pollfd) (post : List Pollfd) (b : Pollfd) :
    (b :: (pre ++ c :: post))[pre.length + 1]? = some c := by
  rw [List.getElem?_cons_succ]
  induction pre with
  | nil => simp
  | cons a pre ih => simpa using ih

/-- C13: `poll_set` returns -1 exactly when no row 1..nfds-1 holds `fd` and none
of them is free, and then the table is unchanged; otherwise it returns 0,
`get_events(fd)` is then exactly `events`, and every row that holds another
descriptor is unchanged.  In the second case exactly one row `i ≥ 1` is
written, it becomes `(fd, events)` and every other row, free or not, is as
before: `i` is the first row that holds `fd`, or, when no row holds `fd`, the
first free row.  Row 0 is kept as it is and has no influence on the result or
on the other rows. -/
theorem poll_set_spec (cl : List Pollfd) (fd : Int) (events : Nat) :
    ((poll_set cl fd events).1 = -1 ↔ ∀ c ∈ cl.tail, c.fd ≠ fd ∧ c.fd ≠ -1) ∧
    ((poll_set cl fd events).1 = -1 → (poll_set cl fd events).2 = cl) ∧
    ((poll_set cl fd events).1 ≠ -1 →
      (poll_set cl fd events).1 = 0 ∧
      get_events (poll_set cl fd events).2 fd = (events : Int) ∧
      ∀ (i : Nat) (c : Pollfd), cl[i]? = some c → c.fd ≠ fd → c.fd ≠ -1 →
        (poll_set cl fd events).2[i]? = some c) ∧
    ((poll_set cl fd events).1 ≠ -1 →
      ∃ (i : Nat) (c : Pollfd), 1 ≤ i ∧ cl[i]? = some c ∧
        (poll_set cl fd events).2 = cl.set i ⟨fd, events⟩ ∧
        ((c.fd = fd ∧ ∀ x ∈ (cl.take i).tail, x.fd ≠ fd) ∨
         (c.fd = -1 ∧ (∀ x ∈ cl.tail, x.fd ≠ fd) ∧ ∀ x ∈ (cl.take i).tail, x.fd ≠ -1))) ∧
    (poll_set cl fd events).2.head? = cl.head? ∧
    (∀ c0 : Pollfd,
      (poll_set (c0 :: cl.tail) fd events).1 = (poll_set cl fd events).1 ∧
      (poll_set (c0 :: cl.tail) fd events).2.tail = (poll_set cl fd events).2.tail) := by
  cases cl with
  | nil =>
    refine ⟨by simp [poll_set], by simp [poll_set], by simp [poll_set], by simp [poll_set],
      by simp [poll_set], ?_⟩
    intro c0
    simp [poll_set, updRow]
  | cons b rows =>
    have key : ∀ c0 : Pollfd, (poll_set (c0 :: rows) fd events).1 = (poll_set (b :: rows) fd events).1 ∧
        (poll_set (c0 :: rows) fd events).2.tail = (poll_set (b :: rows) fd events).2.tail := by
      intro c0
      simp only [poll_set]
      cases updRow fd (fun c => { c with events := events }) rows with
      | some r => simp
      | none =>
        cases updRow (-1) (fun _ => (⟨fd, events⟩ : Pollfd)) rows with
        | some r => simp
        | none => simp
    rcases poll_set_cases b rows fd events with ⟨pre, c, post, e1, e2, e3, e4⟩ |
      ⟨hno, pre, c, post, e1, e2, e3, e4⟩ | ⟨hno, hfree, e4⟩
    · refine ⟨?_, ?_, ?_, ?_, by simp [e4], key⟩
      rotate_left 3
      · intro _
        subst e1
        refine ⟨pre.length + 1, c, by omega, getElem?_split pre c post b, ?_, Or.inl ⟨e3, ?_⟩⟩
        · rw [e4, set_split]
          cases c
          simp only at e3
          rw [e3]
        · rw [take_split_tail]
          exact e2
      · rw [e4]
        simp only [List.tail_cons]
        constructor
        · intro h; exact absurd (show (0 : Int) = -1 from h) (by decide)
        · intro h
          exact absurd e3 (h c (by simp [e1])).1
      · rw [e4]; intro h; exact absurd (show (0 : Int) = -1 from h) (by decide)
      · intro _
        rw [e4]
        refine ⟨rfl, ?_, ?_⟩
        · simp only [get_events, List.tail_cons]
          exact get_events_loop_split fd pre _ post e2 e3
        · intro i x hx hne _
          rw [e1] at hx
          refine getElem?_tail_cons b _ _ x (fun j hj => ?_) i hx
          exact getElem?_replaced pre c _ post j x hj (fun hxc => hne (hxc ▸ e3))
    · refine ⟨?_, ?_, ?_, ?_, by simp [e4], key⟩
      rotate_left 3
      · intro _
        subst e1
        refine ⟨pre.length + 1, c, by omega, getElem?_split pre c post b, ?_,
          Or.inr ⟨e3, fun x hx => hno x hx, ?_⟩⟩
        · rw [e4, set_split]
        · rw [take_split_tail]
          exact e2
      · rw [e4]
        simp only [List.tail_cons]
        constructor
        · intro h; exact absurd (show (0 : Int) = -1 from h) (by decide)
        · intro h
          exact absurd e3 (h c (by simp [e1])).2
      · rw [e4]; intro h; exact absurd (show (0 : Int) = -1 from h) (by decide)
      · intro _
        rw [e4]
        refine ⟨rfl, ?_, ?_⟩
        · simp only [get_events, List.tail_cons]
          exact get_events_loop_split fd pre ⟨fd, events⟩ post
            (fun x hx => hno x (by simp [e1, hx])) rfl
        · intro i x hx _ hfreex
          rw [e1] at hx
          refine getElem?_tail_cons b _ _ x (fun j hj => ?_) i hx
          exact getElem?_replaced pre c _ post j x hj (fun hxc => hfreex (hxc ▸ e3))
    · refine ⟨?_, ?_, ?_, ?_, by simp [e4], key⟩
      · rw [e4]
        simp only [List.tail_cons, true_iff]
        exact fun x hx => ⟨hno x hx, hfree x hx⟩
      · rw [e4]; intro _; rfl
      · rw [e4]; intro h; exact absurd rfl h
      · rw [e4]; intro h; exact absurd rfl h

/-- C13 on a four-row table: a new descriptor takes row 1 and no other row is
written, row 0 stays free, and a call finds the table full only when the three
rows are taken by others. -/
theorem poll_set_spec_witness :
    (poll_set (poll_init 4) 7 POLLIN).1 = 0 ∧
    get_events (poll_set (poll_init 4) 7 POLLIN).2 7 = 1 ∧
    (∃ (i : Nat) (c : Pollfd), 1 ≤ i ∧ (poll_init 4)[i]? = some c ∧
      (poll_set (poll_init 4) 7 POLLIN).2 = (poll_init 4).set i ⟨7, POLLIN⟩ ∧
      ((c.fd = 7 ∧ ∀ x ∈ ((poll_init 4).take i).tail, x.fd ≠ 7) ∨
       (c.fd = -1 ∧ (∀ x ∈ (poll_init 4).tail, x.fd ≠ 7) ∧
        ∀ x ∈ ((poll_init 4).take i).tail, x.fd ≠ -1))) ∧
    (poll_set (poll_init 4) 7 POLLIN).2 = [⟨-1, 0⟩, ⟨7, 1⟩, ⟨-1, 0⟩, ⟨-1, 0⟩] ∧
    (poll_set (poll_init 4) 7 POLLIN).2.head? = some ⟨-1, 0⟩ ∧
    (poll_set [⟨-1, 0⟩, ⟨3, 1⟩, ⟨4, 1⟩, ⟨5, 1⟩] 7 POLLIN).2 = [⟨-1, 0⟩, ⟨3, 1⟩, ⟨4, 1⟩, ⟨5, 1⟩] :=
  have h := poll_set_spec (poll_init 4) 7 POLLIN
  have h' := poll_set_spec [⟨-1, 0⟩, ⟨3, 1⟩, ⟨4, 1⟩, ⟨5, 1⟩] 7 POLLIN
  ⟨(h.2.2.1 (by decide)).1, (h.2.2.1 (by decide)).2.1, h.2.2.2.1 (by decide), by decide,
    h.2.2.2.2.1, h'.2.1 (h'.1.mpr (by decide))⟩

/-! ## `poll_rm` and `poll_add` -/

theorem maskClear_testBit (a b i : Nat) :
    (maskClear a b).testBit i = (a.testBit i && !b.testBit i) := by
  simp only [maskClear, Nat.testBit_xor, Nat.testBit_and]
  cases a.testBit i <;> cases b.testBit i <;> rfl

theorem maskClear_land (a b : Nat) : maskClear a b &&& b = 0 := by
  apply Nat.eq_of_testBit_eq
  intro i
  simp only [Nat.testBit_and, maskClear_testBit, Nat.zero_testBit]
  cases a.testBit i <;> cases b.testBit i <;> rfl

theorem updRow_found (s : Int) (f : Pollfd → Pollfd) (rows : List Pollfd)
    (h : ∃ c ∈ rows, c.fd = s) :
    ∃ pre c post, rows = pre ++ c :: post ∧ (∀ x ∈ pre, x.fd ≠ s) ∧ c.fd = s ∧
      updRow s f rows = some (pre ++ f c :: post) := by
  cases hu : updRow s f rows with
  | none =>
    obtain ⟨c, hc, hfd⟩ := h
    exact absurd hfd ((updRow_none_iff _ _ _).mp hu c hc)
  | some r =>
    obtain ⟨pre, c, post, e1, e2, e3, e4⟩ := updRow_some_split _ _ _ _ hu
    exact ⟨pre, c, post, e1, e2, e3, by rw [e4]⟩

/-- When `fd` has a row, `poll_rm` returns 0 and the events recorded for `fd`
become the old ones without the bits of `events`. -/
theorem poll_rm_found (cl : List Pollfd) (fd : Int) (events : Nat)
    (h : ∃ c ∈ cl.tail, c.fd = fd) :
    (poll_rm cl fd events).1 = 0 ∧
    ∃ e : Nat, get_events cl fd = (e : Int) ∧
      get_events (poll_rm cl fd events).2 fd = ((maskClear e events : Nat) : Int) ∧
      maskClear e events &&& events = 0 := by
  cases cl with
  | nil => simp at h
  | cons c0 rows =>
    simp only [List.tail_cons] at h
    obtain ⟨pre, c, post, e1, e2, e3, e4⟩ :=
      updRow_found fd (fun c => { c with events := maskClear c.events events }) rows h
    have e : poll_rm (c0 :: rows) fd events
        = (0, c0 :: (pre ++ { c with events := maskClear c.events events } :: post)) := by
      simp [poll_rm, e4]
    rw [e]
    refine ⟨rfl, c.events, ?_, ?_, maskClear_land _ _⟩
    · simp only [get_events, List.tail_cons, e1]
      exact get_events_loop_split fd pre c post e2 e3
    · simp only [get_events, List.tail_cons]
      exact get_events_loop_split fd pre _ post e2 e3

/-- C14 at an input it fails on: `fd` 9 has no row in the fresh four-row table
(`get_events` answers -1).  `poll_rm(9, POLLIN)` returns 0, and afterwards the
events recorded for 9 are exactly `POLLIN`: the bit that was to be removed is
the one that is set. -/
theorem poll_rm_absent_registers :
    get_events (poll_init 4) 9 = -1 ∧
    (poll_rm (poll_init 4) 9 POLLIN).1 = 0 ∧
    get_events (poll_rm (poll_init 4) 9 POLLIN).2 9 = 1 ∧
    (1 : Nat) &&& POLLIN = POLLIN := by
  decide

/-! ## The link registry -/

theorem unlink_loop_split (L : Link) (pre post : List Link)
    (hpre : ∀ x ∈ pre, x.local_sockfd ≠ L.local_sockfd) :
    unlink_loop L (pre ++ L :: post) = some (pre ++ post) := by
  induction pre with
  | nil => simp [unlink_loop]
  | cons x xs ih =>
    have hx : x.local_sockfd ≠ L.local_sockfd := hpre x (by simp)
    have ih' := ih (fun y hy => hpre y (by simp [hy]))
    rw [List.cons_append]
    unfold unlink_loop
    simp only [hx, false_and, if_false, ih', Option.map_some', List.cons_append]

theorem distinctLocal_split (L : Link) (pre post : List Link)
    (hd : distinctLocal (pre ++ L :: post)) :
    (∀ x ∈ pre, x.local_sockfd ≠ L.local_sockfd) ∧
    (∀ x ∈ post, x.local_sockfd ≠ L.local_sockfd) ∧ distinctLocal (pre ++ post) := by
  unfold distinctLocal at hd ⊢
  rw [List.pairwise_append] at hd ⊢
  obtain ⟨h1, h2, h3⟩ := hd
  rw [List.pairwise_cons] at h2
  refine ⟨fun x hx => h3 x hx L (by simp), fun x hx => (h2.1 x hx).symm, h1, h2.2, ?_⟩
  intro a ha b hb
  exact h3 a ha b (by simp [hb])

theorem destroy_link_registry (w : World) (L : Link) (pre post : List Link)
    (hd : distinctLocal (pre ++ L :: post)) :
    (destroy_link (pre ++ L :: post) w L).1 = pre ++ post := by
  simp [destroy_link, unlink_link,
    unlink_loop_split L pre post (distinctLocal_split L pre post hd).1]

theorem get_link_mem (reg : List Link) (fd : Int) (x : Link)
    (h : get_link reg fd = some x) : x ∈ reg := by
  induction reg with
  | nil => simp [get_link] at h
  | cons a rest ih =>
    unfold get_link at h
    split_ifs at h
    · simp only [Option.some.injEq] at h
      simp [h]
    · exact List.mem_cons_of_mem _ (ih h)

/-- C16: in a registry whose links have pairwise distinct `local_sockfd`,
`destroy_link(L)` for a link `L` of the registry (at the head, in the middle or
at the tail) leaves exactly the other links, in their order; `get_link` on
either descriptor of `L` no longer returns `L`. -/
theorem destroy_link_unlinks (reg : List Link) (w : World) (L : Link)
    (pre post : List Link) (hd : distinctLocal reg) (hreg : reg = pre ++ L :: post) :
    (destroy_link reg w L).1 = pre ++ post ∧
    get_link (destroy_link reg w L).1 L.local_sockfd ≠ some L ∧
    get_link (destroy_link reg w L).1 L.server_sockfd ≠ some L := by
  subst hreg
  obtain ⟨h1, h2, _⟩ := distinctLocal_split L pre post hd
  have hnot : L ∉ pre ++ post := by
    intro hm
    rcases List.mem_append.mp hm with hm | hm
    · exact h1 L hm rfl
    · exact h2 L hm rfl
  rw [destroy_link_registry w L pre post hd]
  exact ⟨rfl, fun h => hnot (get_link_mem _ _ _ h), fun h => hnot (get_link_mem _ _ _ h)⟩

/-- C16 on a registry of three links: destroying the middle one leaves the
first and the last. -/
theorem destroy_link_unlinks_witness :
    (destroy_link reg3 ⟨cl3, []⟩ (lnFd 7 8 LOCAL 95)).1
      = [lnFd 5 6 (LOCAL ||| SERVER) 0, lnFd 9 10 (LOCAL ||| SERVER) 90] ∧
    get_link (destroy_link reg3 ⟨cl3, []⟩ (lnFd 7 8 LOCAL 95)).1 7 ≠ some (lnFd 7 8 LOCAL 95) :=
  have h := destroy_link_unlinks reg3 ⟨cl3, []⟩ (lnFd 7 8 LOCAL 95)
    [lnFd 5 6 (LOCAL ||| SERVER) 0] [lnFd 9 10 (LOCAL ||| SERVER) 90]
    (by unfold distinctLocal; decide) rfl
  ⟨h.1, h.2.1⟩

/-! ## The reaper -/

theorem time_out_zero_iff (a b v : Int) : time_out a b v = 0 ↔ a - b > v := by
  unfold time_out
  split_ifs with h
  · simp [h]
  · simp [h]

theorem time_out_expired (cfg : Config) (now : Int) (ln : Link) :
    time_out now ln.time (if ln.state &&& SERVER ≠ 0 then cfg.TCP_READ_TIMEOUT
      else cfg.TCP_CONNECT_TIMEOUT) = 0 ↔ expired cfg now ln = true := by
  rw [time_out_zero_iff]
  simp [expired]

theorem destroy_link_calls (reg : List Link) (w : World) (ln : Link) :
    (destroy_link reg w ln).2.calls
      = w.calls ++ [Call.close ln.local_sockfd, Call.close ln.server_sockfd] := by
  simp [destroy_link, World.log, World.poll_del]

theorem reaper_loop_registry (cfg : Config) (now : Int) (rest : List Link) :
    ∀ (K : List Link) (w : World), distinctLocal (K ++ rest) →
      (reaper_loop cfg now rest (K ++ rest, w)).1
        = K ++ rest.filter (fun ln => !expired cfg now ln) := by
  induction rest with
  | nil => intro K w _; simp [reaper_loop]
  | cons ln next ih =>
    intro K w hd
    unfold reaper_loop
    by_cases he : expired cfg now ln = true
    · have ht := (time_out_expired cfg now ln).mpr he
      simp only [ht, if_true]
      have hreg := destroy_link_registry w ln K next hd
      have hd' := (distinctLocal_split ln K next hd).2.2
      have hst : destroy_link (K ++ ln :: next) w ln
          = (K ++ next, (destroy_link (K ++ ln :: next) w ln).2) := by
        rw [← hreg]
      rw [hst, ih K _ hd']
      simp [he]
    · have ht : ¬ time_out now ln.time (if ln.state &&& SERVER ≠ 0 then cfg.TCP_READ_TIMEOUT
          else cfg.TCP_CONNECT_TIMEOUT) = 0 := fun h => he ((time_out_expired cfg now ln).mp h)
      simp only [ht, if_false]
      have e : K ++ ln :: next = (K ++ [ln]) ++ next := by simp
      rw [e] at hd ⊢
      rw [ih (K ++ [ln]) w hd]
      simp [he]

theorem reaper_loop_calls (cfg : Config) (now : Int) (rest : List Link) :
    ∀ (reg : List Link) (w : World),
      (reaper_loop cfg now rest (reg, w)).2.calls
        = w.calls ++ closeCalls (rest.filter (expired cfg now)) := by
  induction rest with
  | nil => intro reg w; simp [reaper_loop, closeCalls]
  | cons ln next ih =>
    intro reg w
    unfold reaper_loop
    by_cases he : expired cfg now ln = true
    · have ht := (time_out_expired cfg now ln).mpr he
      simp only [ht, if_true]
      have hst : destroy_link reg w ln
          = ((destroy_link reg w ln).1, (destroy_link reg w ln).2) := rfl
      rw [hst, ih, destroy_link_calls]
      simp [he, closeCalls]
    · have ht : ¬ time_out now ln.time (if ln.state &&& SERVER ≠ 0 then cfg.TCP_READ_TIMEOUT
          else cfg.TCP_CONNECT_TIMEOUT) = 0 := fun h => he ((time_out_expired cfg now ln).mp h)
      simp only [ht, if_false]
      rw [ih]
      simp [he]

theorem reaper_sweep_eq (cfg : Config) (now : Int) (g : Global)
    (hs : (reaper cfg now g).1 = true) :
    (reaper cfg now g).2
      = ⟨(reaper_loop cfg now g.link_head (g.link_head, g.w)).1,
         (reaper_loop cfg now g.link_head (g.link_head, g.w)).2, now⟩ := by
  unfold reaper at hs ⊢
  split_ifs at hs ⊢ with h1 h2
  · rfl
  · rfl

/-- C17: when a call of `reaper` at time `now` sweeps a registry whose links
have pairwise distinct local descriptors, the registry afterwards consists of
exactly the links with `now - time ≤ T`, in their order (`T` is
`TCP_READ_TIMEOUT` for a link with the `SERVER` flag, `TCP_CONNECT_TIMEOUT`
otherwise); the links with `now - time > T`, and no others, are destroyed
(their two descriptors are closed, in registry order). -/
theorem reaper_sweep_filters (cfg : Config) (now : Int) (g : Global)
    (hd : distinctLocal g.link_head) (hs : (reaper cfg now g).1 = true) :
    (reaper cfg now g).2.link_head = g.link_head.filter (fun ln => !expired cfg now ln) ∧
    (reaper cfg now g).2.w.calls
      = g.w.calls ++ closeCalls (g.link_head.filter (expired cfg now)) := by
  rw [reaper_sweep_eq cfg now g hs]
  constructor
  · have := reaper_loop_registry cfg now g.link_head [] g.w (by simpa using hd)
    simpa using this
  · exact reaper_loop_calls cfg now g.link_head g.link_head g.w

/-- C17 on the registry `reg3` at time 100 with `TCP_READ_TIMEOUT = 60` and
`TCP_CONNECT_TIMEOUT = 10`: only the connected link idle since time 0 is
destroyed. -/
theorem reaper_sweep_filters_witness :
    (reaper cfg0 100 ⟨reg3, ⟨cl3, []⟩, -1⟩).2.link_head
      = [lnFd 7 8 LOCAL 95, lnFd 9 10 (LOCAL ||| SERVER) 90] ∧
    (reaper cfg0 100 ⟨reg3, ⟨cl3, []⟩, -1⟩).2.w.calls = [Call.close 5, Call.close 6] :=
  have h := reaper_sweep_filters cfg0 100 ⟨reg3, ⟨cl3, []⟩, -1⟩
    (by unfold distinctLocal; decide) (by decide)
  ⟨by rw [h.1]; decide, by rw [h.2]; decide⟩

theorem time_out_cases (a b v : Int) : time_out a b v = 0 ∨ time_out a b v = -1 := by
  unfold time_out
  split_ifs
  · exact Or.inl rfl
  · exact Or.inr rfl

theorem reaper_first (cfg : Config) (now : Int) (g : Global) (hc : g.checked = -1) :
    (reaper cfg now g).1 = true := by
  simp [reaper, hc]

theorem reaper_swept_iff (cfg : Config) (now : Int) (g : Global) (hc : g.checked ≠ -1) :
    (reaper cfg now g).1 = true ↔ now - g.checked > cfg.TCP_READ_TIMEOUT := by
  rw [← time_out_zero_iff]
  unfold reaper
  simp only [hc, if_false]
  rcases time_out_cases now g.checked cfg.TCP_READ_TIMEOUT with h | h
  · simp [h]
  · simp [h]

theorem reaper_not_swept (cfg : Config) (now : Int) (g : Global)
    (h : (reaper cfg now g).1 = false) : (reaper cfg now g).2 = g := by
  unfold reaper at h ⊢
  split_ifs at h ⊢ with h1 h2
  rfl

theorem reaper_swept_checked (cfg : Config) (now : Int) (g : Global)
    (h : (reaper cfg now g).1 = true) : (reaper cfg now g).2.checked = now := by
  rw [reaper_sweep_eq cfg now g h]

theorem sweepTimes_chain (cfg : Config) (ts : List Int) :
    ∀ g : Global, g.checked ≠ -1 → (∀ t ∈ ts, t ≠ -1) →
      List.Chain (fun a b => b - a > cfg.TCP_READ_TIMEOUT) g.checked (sweepTimes cfg g ts) := by
  induction ts with
  | nil => intro g _ _; simp [sweepTimes]
  | cons now ts ih =>
    intro g hc hts
    have hnow : now ≠ -1 := hts now (by simp)
    have hrest : ∀ t ∈ ts, t ≠ -1 := fun t ht => hts t (by simp [ht])
    unfold sweepTimes
    by_cases hs : (reaper cfg now g).1 = true
    · simp only [hs, if_true]
      refine List.Chain.cons ((reaper_swept_iff cfg now g hc).mp hs) ?_
      have hck := reaper_swept_checked cfg now g hs
      have := ih (reaper cfg now g).2 (by rw [hck]; exact hnow) hrest
      rwa [hck] at this
    · have hf : (reaper cfg now g).1 = false := by simpa using hs
      simp only [hf, Bool.false_eq_true, if_false]
      rw [reaper_not_swept cfg now g hf]
      exact ih g hc hrest

/-- C20: the first call of `reaper` (`checked` still `(time_t)-1`) sweeps; a
later call at time `now` sweeps exactly when `now - checked >
TCP_READ_TIMEOUT`, where `checked` is the time of the previous sweep; a call
that does not sweep leaves registry, table and `checked` as they were; hence,
over successive calls at times other than `(time_t)-1`, two consecutive sweeps
are more than `TCP_READ_TIMEOUT` apart. -/
theorem reaper_gating (cfg : Config) (now : Int) (g : Global) (ts : List Int)
    (hts : ∀ t ∈ ts, t ≠ -1) :
    (g.checked = -1 → (reaper cfg now g).1 = true) ∧
    (g.checked ≠ -1 →
      ((reaper cfg now g).1 = true ↔ now - g.checked > cfg.TCP_READ_TIMEOUT)) ∧
    ((reaper cfg now g).1 = false → (reaper cfg now g).2 = g) ∧
    ((reaper cfg now g).1 = true → (reaper cfg now g).2.checked = now) ∧
    (g.checked = -1 →
      List.Chain' (fun a b => b - a > cfg.TCP_READ_TIMEOUT) (sweepTimes cfg g ts)) := by
  refine ⟨reaper_first cfg now g, reaper_swept_iff cfg now g, reaper_not_swept cfg now g,
    reaper_swept_checked cfg now g, ?_⟩
  intro hc
  cases ts with
  | nil => simp [sweepTimes]
  | cons t ts =>
    have ht : t ≠ -1 := hts t (by simp)
    have hs := reaper_first cfg t g hc
    have hck := reaper_swept_checked cfg t g hs
    unfold sweepTimes
    simp only [hs, if_true]
    have := sweepTimes_chain cfg ts (reaper cfg t g).2 (by rw [hck]; exact ht)
      (fun x hx => hts x (by simp [hx]))
    rw [hck] at this
    exact this

/-- C20 on successive calls at times 100, 130, 161 and 200 with
`TCP_READ_TIMEOUT = 60`: the first call sweeps, and so does the call at 161
only. -/
theorem reaper_gating_witness :
    (reaper cfg0 100 ⟨reg3, ⟨cl3, []⟩, -1⟩).1 = true ∧
    sweepTimes cfg0 ⟨reg3, ⟨cl3, []⟩, -1⟩ [100, 130, 161, 200] = [100, 161] ∧
    List.Chain' (fun a b => b - a > cfg0.TCP_READ_TIMEOUT)
      (sweepTimes cfg0 ⟨reg3, ⟨cl3, []⟩, -1⟩ [100, 130, 161, 200]) :=
  have h := reaper_gating cfg0 100 ⟨reg3, ⟨cl3, []⟩, -1⟩ [100, 130, 161, 200] (by decide)
  ⟨h.1 rfl, by decide, h.2.2.2.2 rfl⟩

/-! ## Descriptors in the readiness table -/

theorem count_fd_split (pre : List Pollfd) (c : Pollfd) (post : List Pollfd) (x : Int) :
    ((pre ++ c :: post).map (fun r => r.fd)).count x
      = (pre.map (fun r => r.fd)).count x + (if c.fd = x then 1 else 0)
        + (post.map (fun r => r.fd)).count x := by
  simp only [List.map_append, List.map_cons, List.count_append, List.count_cons, beq_iff_eq]
  omega

theorem count_fd_zero (rows : List Pollfd) (x : Int) (h : ∀ r ∈ rows, r.fd ≠ x) :
    (rows.map (fun r => r.fd)).count x = 0 := by
  rw [List.count_eq_zero]
  intro hm
  obtain ⟨r, hr, e⟩ := List.mem_map.mp hm
  exact h r hr e

theorem count_fd_zero_mem (rows : List Pollfd) (x : Int)
    (h : (rows.map (fun r => r.fd)).count x = 0) : ∀ r ∈ rows, r.fd ≠ x := by
  intro r hr e
  rw [List.count_eq_zero] at h
  exact h (List.mem_map.mpr ⟨r, hr, e⟩)

theorem poll_del_cases (c0 : Pollfd) (rows : List Pollfd) (s : Int) :
    (∃ pre c post, rows = pre ++ c :: post ∧ (∀ x ∈ pre, x.fd ≠ s) ∧ c.fd = s ∧
      poll_del (c0 :: rows) s = (0, c0 :: (pre ++ { c with fd := -1 } :: post))) ∨
    ((∀ x ∈ rows, x.fd ≠ s) ∧ poll_del (c0 :: rows) s = (-1, c0 :: rows)) := by
  cases h1 : updRow s (fun c => { c with fd := -1 }) rows with
  | some r =>
    obtain ⟨pre, c, post, e1, e2, e3, e4⟩ := updRow_some_split _ _ _ _ h1
    exact Or.inl ⟨pre, c, post, e1, e2, e3, by simp [poll_del, h1, e4]⟩
  | none =>
    exact Or.inr ⟨(updRow_none_iff _ _ _).mp h1, by simp [poll_del, h1]⟩

theorem poll_add_cases (c0 : Pollfd) (rows : List Pollfd) (fd : Int) (ev : Nat) :
    (∃ pre c post, rows = pre ++ c :: post ∧ (∀ x ∈ pre, x.fd ≠ fd) ∧ c.fd = fd ∧
      poll_add (c0 :: rows) fd ev
        = (0, c0 :: (pre ++ { c with events := c.events ||| ev } :: post))) ∨
    ((∀ x ∈ rows, x.fd ≠ fd) ∧ poll_add (c0 :: rows) fd ev = poll_set (c0 :: rows) fd ev) := by
  cases h1 : updRow fd (fun c => { c with events := c.events ||| ev }) rows with
  | some r =>
    obtain ⟨pre, c, post, e1, e2, e3, e4⟩ := updRow_some_split _ _ _ _ h1
    exact Or.inl ⟨pre, c, post, e1, e2, e3, by simp [poll_add, h1, e4]⟩
  | none =>
    exact Or.inr ⟨(updRow_none_iff _ _ _).mp h1, by simp [poll_add, h1]⟩

theorem poll_rm_cases (c0 : Pollfd) (rows : List Pollfd) (fd : Int) (ev : Nat) :
    (∃ pre c post, rows = pre ++ c :: post ∧ (∀ x ∈ pre, x.fd ≠ fd) ∧ c.fd = fd ∧
      poll_rm (c0 :: rows) fd ev
        = (0, c0 :: (pre ++ { c with events := maskClear c.events ev } :: post))) ∨
    ((∀ x ∈ rows, x.fd ≠ fd) ∧ poll_rm (c0 :: rows) fd ev = poll_set (c0 :: rows) fd ev) := by
  cases h1 : updRow fd (fun c => { c with events := maskClear c.events ev }) rows with
  | some r =>
    obtain ⟨pre, c, post, e1, e2, e3, e4⟩ := updRow_some_split _ _ _ _ h1
    exact Or.inl ⟨pre, c, post, e1, e2, e3, by simp [poll_rm, h1, e4]⟩
  | none =>
    exact Or.inr ⟨(updRow_none_iff _ _ _).mp h1, by simp [poll_rm, h1]⟩

theorem poll_set_unique (cl : List Pollfd) (fd : Int) (ev : Nat) (hu : UniqueFds cl) :
    UniqueFds (poll_set cl fd ev).2 := by
  cases cl with
  | nil => simpa [poll_set] using hu
  | cons c0 rows =>
    rcases poll_set_cases c0 rows fd ev with ⟨pre, c, post, e1, e2, e3, e4⟩ |
      ⟨hno, pre, c, post, e1, e2, e3, e4⟩ | ⟨_, _, e4⟩
    · subst e1
      intro y hy
      have := hu y hy
      simp only [rowCount, List.tail_cons, e4, count_fd_split] at this ⊢
      exact this
    · subst e1
      intro y hy
      have := hu y hy
      have hpre : (pre.map (fun r => r.fd)).count fd = 0 :=
        count_fd_zero pre fd (fun r hr => hno r (by simp [hr]))
      have hpost : (post.map (fun r => r.fd)).count fd = 0 :=
        count_fd_zero post fd (fun r hr => hno r (by simp [hr]))
      simp only [rowCount, List.tail_cons, e4, count_fd_split, e3] at this ⊢
      by_cases hyf : fd = y
      · subst hyf
        simp only [if_true, hpre, hpost]
        omega
      · simp only [hyf, if_false] at this ⊢
        omega
    · rw [e4]; exact hu

theorem poll_add_unique (cl : List Pollfd) (fd : Int) (ev : Nat) (hu : UniqueFds cl) :
    UniqueFds (poll_add cl fd ev).2 := by
  cases cl with
  | nil => simpa [poll_add, poll_set] using hu
  | cons c0 rows =>
    rcases poll_add_cases c0 rows fd ev with ⟨pre, c, post, e1, e2, e3, e4⟩ | ⟨_, e4⟩
    · subst e1
      intro y hy
      have := hu y hy
      simp only [rowCount, List.tail_cons, e4, count_fd_split] at this ⊢
      exact this
    · rw [e4]; exact poll_set_unique _ fd ev hu

theorem poll_rm_unique (cl : List Pollfd) (fd : Int) (ev : Nat) (hu : UniqueFds cl) :
    UniqueFds (poll_rm cl fd ev).2 := by
  cases cl with
  | nil => simpa [poll_rm, poll_set] using hu
  | cons c0 rows =>
    rcases poll_rm_cases c0 rows fd ev with ⟨pre, c, post, e1, e2, e3, e4⟩ | ⟨_, e4⟩
    · subst e1
      intro y hy
      have := hu y hy
      simp only [rowCount, List.tail_cons, e4, count_fd_split] at this ⊢
      exact this
    · rw [e4]; exact poll_set_unique _ fd ev hu

theorem poll_del_unique (cl : List Pollfd) (s : Int) (hu : UniqueFds cl) :
    UniqueFds (poll_del cl s).2 := by
  cases cl with
  | nil => simpa [poll_del] using hu
  | cons c0 rows =>
    rcases poll_del_cases c0 rows s with ⟨pre, c, post, e1, e2, e3, e4⟩ | ⟨_, e4⟩
    · subst e1
      intro y hy
      have := hu y hy
      have hne : ¬ ((-1 : Int) = y) := fun h => hy h.symm
      simp only [rowCount, List.tail_cons, e4, count_fd_split, hne, if_false] at this ⊢
      omega
    · rw [e4]; exact hu

theorem poll_init_unique (nfds : Nat) : UniqueFds (poll_init nfds) := by
  intro y hy
  have : (((poll_init nfds).tail).map (fun r => r.fd)).count y = 0 := by
    apply count_fd_zero
    intro r hr
    have hm : r ∈ poll_init nfds := List.mem_of_mem_tail hr
    simp only [poll_init, List.mem_replicate] at hm
    rw [hm.2]
    exact fun h => hy h.symm
  simp only [rowCount, this]
  omega

theorem reachable_unique (cl : List Pollfd) (h : Reachable cl) : UniqueFds cl := by
  induction h with
  | init nfds => exact poll_init_unique nfds
  | set fd ev _ ih => exact poll_set_unique _ fd ev ih
  | add fd ev _ ih => exact poll_add_unique _ fd ev ih
  | rm fd ev _ ih => exact poll_rm_unique _ fd ev ih
  | del fd _ ih => exact poll_del_unique _ fd ih

theorem poll_del_absent (cl : List Pollfd) (s : Int) (hu : UniqueFds cl) (hs : s ≠ -1) :
    ∀ x ∈ (poll_del cl s).2.tail, x.fd ≠ s := by
  cases cl with
  | nil => simp [poll_del]
  | cons c0 rows =>
    rcases poll_del_cases c0 rows s with ⟨pre, c, post, e1, e2, e3, e4⟩ | ⟨hno, e4⟩
    · subst e1
      have := hu s hs
      simp only [rowCount, List.tail_cons, count_fd_split, e3, if_true] at this
      have hpost := count_fd_zero_mem post s (by omega)
      rw [e4]
      intro x hx
      simp only [List.tail_cons, List.mem_append, List.mem_cons] at hx
      rcases hx with hx | rfl | hx
      · exact e2 x hx
      · exact fun h => hs h.symm
      · exact hpost x hx
    · rw [e4]; exact hno

theorem poll_del_fds (cl : List Pollfd) (s : Int) :
    ∀ x ∈ (poll_del cl s).2.tail, x.fd ≠ -1 → ∃ y ∈ cl.tail, y.fd = x.fd := by
  cases cl with
  | nil => simp [poll_del]
  | cons c0 rows =>
    rcases poll_del_cases c0 rows s with ⟨pre, c, post, e1, e2, e3, e4⟩ | ⟨_, e4⟩
    · subst e1
      rw [e4]
      intro x hx hne
      simp only [List.tail_cons, List.mem_append, List.mem_cons] at hx
      rcases hx with hx | rfl | hx
      · exact ⟨x, by simp [hx], rfl⟩
      · exact absurd rfl hne
      · exact ⟨x, by simp [hx], rfl⟩
    · rw [e4]
      intro x hx _
      exact ⟨x, hx, rfl⟩

theorem poll_del_keeps (cl : List Pollfd) (s : Int) :
    ∀ (i : Nat) (c : Pollfd), cl[i]? = some c → c.fd ≠ s → (poll_del cl s).2[i]? = some c := by
  cases cl with
  | nil => simp [poll_del]
  | cons c0 rows =>
    rcases poll_del_cases c0 rows s with ⟨pre, c, post, e1, e2, e3, e4⟩ | ⟨_, e4⟩
    · subst e1
      rw [e4]
      intro i x hx hne
      refine getElem?_tail_cons c0 _ _ x (fun j hj => ?_) i hx
      exact getElem?_replaced pre c _ post j x hj (fun hxc => hne (hxc ▸ e3))
    · rw [e4]
      intro i x hx _
      exact hx

theorem destroy_link_clients (reg : List Link) (w : World) (L : Link) :
    (destroy_link reg w L).2.clients
      = (poll_del (poll_del w.clients L.local_sockfd).2 L.server_sockfd).2 := by
  simp [destroy_link, World.log, World.poll_del]

/-- C15: on a table reachable from `poll_init` by `poll_set`, `poll_add`,
`poll_rm` and `poll_del`, after `destroy_link(L)` no row 1..nfds-1 holds the
local descriptor of `L` nor, when it is not -1, its server descriptor; every
row that holds another descriptor is unchanged. -/
theorem destroy_link_forgets_fds (reg : List Link) (w : World) (L : Link)
    (hr : Reachable w.clients) (hl : L.local_sockfd ≠ -1) :
    (∀ c ∈ (destroy_link reg w L).2.clients.tail,
      c.fd ≠ L.local_sockfd ∧ (L.server_sockfd ≠ -1 → c.fd ≠ L.server_sockfd)) ∧
    (∀ (i : Nat) (c : Pollfd), w.clients[i]? = some c → c.fd ≠ L.local_sockfd →
      c.fd ≠ L.server_sockfd → (destroy_link reg w L).2.clients[i]? = some c) := by
  rw [destroy_link_clients]
  have hu := reachable_unique _ hr
  have hu1 := poll_del_unique _ L.local_sockfd hu
  have h1 := poll_del_absent _ L.local_sockfd hu hl
  refine ⟨fun c hc => ⟨?_, fun hs => poll_del_absent _ L.server_sockfd hu1 hs c hc⟩, ?_⟩
  · intro hfd
    obtain ⟨y, hy, e⟩ := poll_del_fds _ L.server_sockfd c hc (by rw [hfd]; exact hl)
    exact h1 y hy (e.trans hfd)
  · intro i c hc hne1 hne2
    exact poll_del_keeps _ L.server_sockfd i c (poll_del_keeps _ L.local_sockfd i c hc hne1) hne2

/-- C15 on the table `cl56`: destroying the link with descriptors 5 and 6
frees both rows (their `events` stay as they were). -/
theorem destroy_link_forgets_fds_witness :
    (∀ c ∈ (destroy_link [lnFd 5 6 LOCAL 0] ⟨cl56, []⟩ (lnFd 5 6 LOCAL 0)).2.clients.tail,
      c.fd ≠ 5 ∧ ((6 : Int) ≠ -1 → c.fd ≠ 6)) ∧
    (destroy_link [lnFd 5 6 LOCAL 0] ⟨cl56, []⟩ (lnFd 5 6 LOCAL 0)).2.clients
      = [⟨-1, 0⟩, ⟨-1, 1⟩, ⟨-1, 4⟩, ⟨-1, 0⟩] :=
  ⟨(destroy_link_forgets_fds [lnFd 5 6 LOCAL 0] ⟨cl56, []⟩ (lnFd 5 6 LOCAL 0)
      (Reachable.set 6 POLLOUT (Reachable.set 5 POLLIN (Reachable.init 4))) (by decide)).1,
    by decide⟩

/-! ## `do_send` -/

theorem rm_data_ok_ret (ln : Link) (type : BufType) (n : Int) (hty : type ≠ .other)
    (h : n ≤ ln.bufLen type) :
    (rm_data ln type n).1 = 0 ∧ (rm_data ln type n).2.bufLen type = ln.bufLen type - n := by
  cases type
  · simp only [Link.bufLen] at h
    simp [rm_data_text_ok ln n h, Link.bufLen]
  · simp only [Link.bufLen] at h
    simp [rm_data_cipher_ok ln n h, Link.bufLen]
  · exact absurd rfl hty

theorem do_send_sent (env : Env) (w : World) (sockfd : Int) (ln : Link) (type : BufType)
    (offset : Int) (hty : type ≠ .other)
    (h1 : (env.send sockfd (sendBytes ln type offset)).1 ≠ -1)
    (h2 : (env.send sockfd (sendBytes ln type offset)).1 ≤ ln.bufLen type) :
    do_send env w sockfd ln type offset =
      if (env.send sockfd (sendBytes ln type offset)).1 ≠ ln.bufLen type - offset then
        ⟨-1, (w.log (.send sockfd (sendBytes ln type offset))).poll_add sockfd POLLOUT,
          (rm_data { ln with time := env.now } type
            (env.send sockfd (sendBytes ln type offset)).1).2⟩
      else
        ⟨(env.send sockfd (sendBytes ln type offset)).1,
          (w.log (.send sockfd (sendBytes ln type offset))).poll_set sockfd POLLIN,
          (rm_data { ln with time := env.now } type
            (env.send sockfd (sendBytes ln type offset)).1).2⟩ := by
  have hrm := (rm_data_ok_ret { ln with time := env.now } type
    (env.send sockfd (sendBytes ln type offset)).1 hty (by cases type <;> exact h2)).1
  have hne : ¬ ((0 : Int) = -1) := by decide
  cases type
  · simp only [sendBytes, if_true, Link.bufLen] at h1 h2 hrm ⊢
    simp only [do_send, if_true, h1, if_false, hrm, hne]
  · simp only [sendBytes, show ¬ (BufType.cipher = BufType.text) by decide, if_false,
      Link.bufLen] at h1 h2 hrm ⊢
    simp only [do_send, show ¬ (BufType.cipher = BufType.text) by decide, if_false, h1, hrm, hne]
  · exact absurd rfl hty

theorem poll_set_get_events (cl : List Pollfd) (fd : Int) (ev : Nat)
    (h : (poll_set cl fd ev).1 = 0) : get_events (poll_set cl fd ev).2 fd = (ev : Int) := by
  cases cl with
  | nil => simp [poll_set] at h
  | cons c0 rows =>
    rcases poll_set_cases c0 rows fd ev with ⟨pre, c, post, e1, e2, e3, e4⟩ |
      ⟨hno, pre, c, post, e1, e2, e3, e4⟩ | ⟨_, _, e4⟩
    · rw [e4]
      simp only [get_events, List.tail_cons]
      exact get_events_loop_split fd pre _ post e2 e3
    · rw [e4]
      simp only [get_events, List.tail_cons]
      exact get_events_loop_split fd pre ⟨fd, ev⟩ post
        (fun x hx => hno x (by simp [e1, hx])) rfl
    · rw [e4] at h
      exact absurd (show (-1 : Int) = 0 from h) (by decide)

theorem poll_set_found (cl : List Pollfd) (fd : Int) (ev : Nat)
    (h : ∃ c ∈ cl.tail, c.fd = fd) : (poll_set cl fd ev).1 = 0 := by
  cases cl with
  | nil => simp at h
  | cons c0 rows =>
    obtain ⟨c, hc, hfd⟩ := h
    simp only [List.tail_cons] at hc
    rcases poll_set_cases c0 rows fd ev with ⟨pre, c', post, e1, e2, e3, e4⟩ |
      ⟨hno, _⟩ | ⟨hno, _⟩
    · rw [e4]
    · exact absurd hfd (hno c hc)
    · exact absurd hfd (hno c hc)

theorem poll_add_found (cl : List Pollfd) (fd : Int) (ev : Nat)
    (h : ∃ c ∈ cl.tail, c.fd = fd) :
    (poll_add cl fd ev).1 = 0 ∧
    ∃ e : Nat, get_events cl fd = (e : Int) ∧
      get_events (poll_add cl fd ev).2 fd = ((e ||| ev : Nat) : Int) := by
  cases cl with
  | nil => simp at h
  | cons c0 rows =>
    obtain ⟨c, hc, hfd⟩ := h
    simp only [List.tail_cons] at hc
    rcases poll_add_cases c0 rows fd ev with ⟨pre, c', post, e1, e2, e3, e4⟩ | ⟨hno, _⟩
    · rw [e4]
      refine ⟨rfl, c'.events, ?_, ?_⟩
      · simp only [get_events, List.tail_cons, e1]
        exact get_events_loop_split fd pre c' post e2 e3
      · simp only [get_events, List.tail_cons]
        exact get_events_loop_split fd pre _ post e2 e3
    · exact absurd hfd (hno c hc)

theorem get_events_loop_absent (fd : Int) (rows : List Pollfd)
    (h : ∀ c ∈ rows, c.fd ≠ fd) : get_events_loop fd rows = -1 := by
  induction rows with
  | nil => rfl
  | cons c cs ih =>
    have hc : c.fd ≠ fd := h c (by simp)
    simp only [get_events_loop, hc, if_false]
    exact ih (fun x hx => h x (by simp [hx]))

theorem get_events_absent (cl : List Pollfd) (fd : Int) (h : ∀ c ∈ cl.tail, c.fd ≠ fd) :
    get_events cl fd = -1 :=
  get_events_loop_absent fd cl.tail h

theorem poll_set_room (cl : List Pollfd) (fd : Int) (ev : Nat)
    (h : ∃ c ∈ cl.tail, c.fd = fd ∨ c.fd = -1) : (poll_set cl fd ev).1 = 0 := by
  cases cl with
  | nil => simp at h
  | cons c0 rows =>
    obtain ⟨c, hc, hfd⟩ := h
    simp only [List.tail_cons] at hc
    rcases poll_set_cases c0 rows fd ev with ⟨pre, c', post, e1, e2, e3, e4⟩ |
      ⟨_, pre, c', post, e1, e2, e3, e4⟩ | ⟨hno, hfree, _⟩
    · rw [e4]
    · rw [e4]
    · rcases hfd with hfd | hfd
      · exact absurd hfd (hno c hc)
      · exact absurd hfd (hfree c hc)

theorem poll_add_room (cl : List Pollfd) (fd : Int) (ev : Nat)
    (h : ∃ c ∈ cl.tail, c.fd = fd ∨ c.fd = -1) :
    (∀ e : Nat, get_events cl fd = (e : Int) →
      get_events (poll_add cl fd ev).2 fd = ((e ||| ev : Nat) : Int)) ∧
    (get_events cl fd = -1 → get_events (poll_add cl fd ev).2 fd = (ev : Int)) := by
  by_cases hreg : ∃ c ∈ cl.tail, c.fd = fd
  · obtain ⟨_, e0, hb, ha⟩ := poll_add_found cl fd ev hreg
    constructor
    · intro e he
      rw [hb] at he
      have : e0 = e := by exact_mod_cast he
      rw [ha, this]
    · intro hm
      rw [hb] at hm
      omega
  · have hno : ∀ c ∈ cl.tail, c.fd ≠ fd := fun c hc hfd => hreg ⟨c, hc, hfd⟩
    have habs := get_events_absent cl fd hno
    have hadd : poll_add cl fd ev = poll_set cl fd ev := by
      cases cl with
      | nil => rfl
      | cons c0 rows =>
        rcases poll_add_cases c0 rows fd ev with ⟨pre, c', post, e1, _, e3, _⟩ | ⟨_, e4⟩
        · exact absurd e3 (hno c' (by simp [e1]))
        · exact e4
    constructor
    · intro e he
      rw [habs] at he
      omega
    · intro _
      rw [hadd]
      exact poll_set_get_events cl fd ev (poll_set_room cl fd ev h)

/-- C18 fails as stated: in the table `clFull`, whose rows 1..3 hold the
descriptors 3, 4 and 6, descriptor 5 has no row and none is free.  `do_send`
on descriptor 5 with the text buffer `[1, 2, 3]` returns -1 after a send of 2
bytes and 3 after a send of 3 bytes, but the result of `poll_add` resp.
`poll_set` is not looked at and the table is unchanged: no events are recorded
for descriptor 5, neither `POLLOUT` nor `POLLIN`. -/
theorem do_send_interest_full_table :
    clFull = [⟨-1, 0⟩, ⟨3, 1⟩, ⟨4, 1⟩, ⟨6, 1⟩] ∧
    get_events clFull 5 = -1 ∧
    ((envSend 2).send 5 (sendBytes (lnText [1, 2, 3]) .text 0)).1 = 2 ∧
    (do_send (envSend 2) ⟨clFull, []⟩ 5 (lnText [1, 2, 3]) .text 0).ret = -1 ∧
    (do_send (envSend 2) ⟨clFull, []⟩ 5 (lnText [1, 2, 3]) .text 0).ln.text_len = 1 ∧
    (do_send (envSend 2) ⟨clFull, []⟩ 5 (lnText [1, 2, 3]) .text 0).w.clients = clFull ∧
    get_events (do_send (envSend 2) ⟨clFull, []⟩ 5 (lnText [1, 2, 3]) .text 0).w.clients 5
      ≠ (POLLOUT : Int) ∧
    ((envSend 3).send 5 (sendBytes (lnText [1, 2, 3]) .text 0)).1 = 3 ∧
    (do_send (envSend 3) ⟨clFull, []⟩ 5 (lnText [1, 2, 3]) .text 0).ret = 3 ∧
    (do_send (envSend 3) ⟨clFull, []⟩ 5 (lnText [1, 2, 3]) .text 0).ln.text_len = 0 ∧
    (do_send (envSend 3) ⟨clFull, []⟩ 5 (lnText [1, 2, 3]) .text 0).w.clients = clFull ∧
    get_events (do_send (envSend 3) ⟨clFull, []⟩ 5 (lnText [1, 2, 3]) .text 0).w.clients 5
      ≠ (POLLIN : Int) := by
  refine ⟨by decide, by decide, by decide, by decide, by decide, by decide, by decide,
    by decide, by decide, by decide, by decide, by decide⟩

/-- C18 as amended: for `do_send` with offset 0 on a descriptor that has a row
in the table or can get one (a row is free): when `send` accepts `n` bytes with
`0 ≤ n < len`, the buffer length decreases by exactly `n`, the events recorded
for the descriptor gain `POLLOUT` (the other bits are kept; `POLLOUT` alone
when the descriptor had no row) and `do_send` returns -1; when `send` accepts
all `len` bytes, the buffer becomes empty, the events recorded for the
descriptor are exactly `POLLIN` and `do_send` returns `len`. -/
theorem do_send_interest (cfg : Config) (env : Env) (w : World) (sockfd : Int) (ln : Link)
    (type : BufType) (hty : type ≠ .other) (hb : ln.bounded cfg)
    (hroom : ∃ c ∈ w.clients.tail, c.fd = sockfd ∨ c.fd = -1) :
    (0 ≤ (env.send sockfd (sendBytes ln type 0)).1 ∧
      (env.send sockfd (sendBytes ln type 0)).1 < ln.bufLen type →
        (do_send env w sockfd ln type 0).ret = -1 ∧
        (do_send env w sockfd ln type 0).ln.bufLen type
          = ln.bufLen type - (env.send sockfd (sendBytes ln type 0)).1 ∧
        (∀ e : Nat, get_events w.clients sockfd = (e : Int) →
          get_events (do_send env w sockfd ln type 0).w.clients sockfd
            = ((e ||| POLLOUT : Nat) : Int)) ∧
        (get_events w.clients sockfd = -1 →
          get_events (do_send env w sockfd ln type 0).w.clients sockfd = (POLLOUT : Int))) ∧
    ((env.send sockfd (sendBytes ln type 0)).1 = ln.bufLen type →
        (do_send env w sockfd ln type 0).ret = ln.bufLen type ∧
        (do_send env w sockfd ln type 0).ln.bufLen type = 0 ∧
        (do_send env w sockfd ln type 0).ln.bufData type = [] ∧
        get_events (do_send env w sockfd ln type 0).w.clients sockfd = (POLLIN : Int)) := by
  have hlen : 0 ≤ ln.bufLen type := by
    obtain ⟨a, _, c, _⟩ := hb
    cases type
    · exact a
    · exact c
    · exact le_refl _
  constructor
  · rintro ⟨h0, hlt⟩
    have hsent := do_send_sent env w sockfd ln type 0 hty (by omega) (by omega)
    rw [if_pos (by omega)] at hsent
    rw [hsent]
    refine ⟨rfl, ?_, ?_⟩
    · have := (rm_data_ok_ret { ln with time := env.now } type
        (env.send sockfd (sendBytes ln type 0)).1 hty (by cases type <;> exact le_of_lt hlt)).2
      cases type <;> simpa [Link.bufLen] using this
    · simp only [World.poll_add, World.log]
      exact poll_add_room w.clients sockfd POLLOUT hroom
  · intro heq
    have hsent := do_send_sent env w sockfd ln type 0 hty (by omega) (by omega)
    rw [if_neg (by omega)] at hsent
    rw [hsent]
    have hrm := (rm_data_ok_ret { ln with time := env.now } type
      (env.send sockfd (sendBytes ln type 0)).1 hty (by cases type <;> exact le_of_eq heq)).2
    have hz : (rm_data { ln with time := env.now } type
        (env.send sockfd (sendBytes ln type 0)).1).2.bufLen type = 0 := by
      rw [hrm, heq]
      cases type <;> simp [Link.bufLen]
    refine ⟨heq, hz, ?_, ?_⟩
    · cases type
      · simp only [Link.bufLen] at hz
        simp [Link.bufData, Link.textData, hz]
      · simp only [Link.bufLen] at hz
        simp [Link.bufData, Link.cipherData, hz]
      · rfl
    · simp only [World.poll_set, World.log]
      exact poll_set_get_events w.clients sockfd POLLIN (poll_set_room _ _ _ hroom)

theorem lnText_bounded (bytes : List Nat) (h : bytes.length ≤ 32) :
    (lnText bytes).bounded cfg0 := by
  obtain ⟨_, _, c, d, e, f⟩ := lnText_wf bytes h
  exact ⟨c, d, e, f⟩

/-- C18 as amended, on the text buffer `[1, 2, 3]` and descriptor 5, recorded
with `POLLIN`: a send of 2 bytes leaves one byte and `POLLIN | POLLOUT`; a send
of 3 bytes leaves none and `POLLIN`. -/
theorem do_send_interest_witness :
    (do_send (envSend 2) ⟨cl56, []⟩ 5 (lnText [1, 2, 3]) .text 0).ret = -1 ∧
    (do_send (envSend 2) ⟨cl56, []⟩ 5 (lnText [1, 2, 3]) .text 0).ln.bufLen .text = 1 ∧
    get_events (do_send (envSend 2) ⟨cl56, []⟩ 5 (lnText [1, 2, 3]) .text 0).w.clients 5 = 5 ∧
    (do_send (envSend 3) ⟨cl56, []⟩ 5 (lnText [1, 2, 3]) .text 0).ret = 3 ∧
    get_events (do_send (envSend 3) ⟨cl56, []⟩ 5 (lnText [1, 2, 3]) .text 0).w.clients 5 = 1 :=
  have h2 := (do_send_interest cfg0 (envSend 2) ⟨cl56, []⟩ 5 (lnText [1, 2, 3]) .text
    (by decide) (lnText_bounded _ (by decide)) ⟨⟨5, 1⟩, by decide, Or.inl rfl⟩).1
    ⟨by decide, by decide⟩
  have h3 := (do_send_interest cfg0 (envSend 3) ⟨cl56, []⟩ 5 (lnText [1, 2, 3]) .text
    (by decide) (lnText_bounded _ (by decide)) ⟨⟨5, 1⟩, by decide, Or.inl rfl⟩).2 (by decide)
  ⟨h2.1, by rw [h2.2.1]; decide, h2.2.2.1 1 (by decide), by rw [h3.1]; decide, h3.2.2.2⟩

/-- With offset 0 the order of the bytes is kept by `do_send`: the bytes handed
to `send` are the content of the buffer, and after `n` of them have been
accepted the buffer holds the old content without its first `n` bytes. -/
theorem do_send_offset_zero_order (cfg : Config) (env : Env) (w : World) (sockfd : Int)
    (ln : Link) (type : BufType) (hty : type ≠ .other) (hwf : ln.wf cfg)
    (h0 : 0 ≤ (env.send sockfd (sendBytes ln type 0)).1)
    (hn : (env.send sockfd (sendBytes ln type 0)).1 ≤ ln.bufLen type) :
    sendBytes ln type 0 = ln.bufData type ∧
    (do_send env w sockfd ln type 0).ln.bufData type
      = (ln.bufData type).drop (env.send sockfd (sendBytes ln type 0)).1.toNat := by
  obtain ⟨hts, hcs, htl, hth, hcl, hch⟩ := hwf
  have hsent := do_send_sent env w sockfd ln type 0 hty (by omega) hn
  have hln : (do_send env w sockfd ln type 0).ln
      = (rm_data { ln with time := env.now } type
          (env.send sockfd (sendBytes ln type 0)).1).2 := by
    rw [hsent]; split_ifs <;> rfl
  rw [hln]
  cases type
  · simp only [Link.bufLen] at hn
    refine ⟨by simp [sendBytes, load, Link.bufData, Link.textData], ?_⟩
    rw [rm_data_text_ok { ln with time := env.now } _ hn]
    simp only [Link.bufData, Link.textData]
    exact memmove_front_take ln.text _ ln.text_len h0 hn (by omega)
  · simp only [Link.bufLen] at hn
    refine ⟨by simp [sendBytes, load, Link.bufData, Link.cipherData], ?_⟩
    rw [rm_data_cipher_ok { ln with time := env.now } _ hn]
    simp only [Link.bufData, Link.cipherData]
    exact memmove_front_take ln.cipher _ ln.cipher_len h0 hn (by omega)
  · exact absurd rfl hty

/-- C19 at an input it fails on: the text buffer holds `[1, 2, 3]`, the offset
is 1 and `send` accepts one byte.  The bytes handed to `send` are `[2, 3]`, so
the byte transmitted is 2; afterwards the buffer holds `[2, 3]`: the byte that
was not transmitted, 1, is gone and the transmitted byte is still there. -/
theorem do_send_offset_removes_front :
    (do_send (envSend 1) w0 5 (lnText [1, 2, 3]) .text 1).w.calls = [Call.send 5 [2, 3]] ∧
    (do_send (envSend 1) w0 5 (lnText [1, 2, 3]) .text 1).ln.textData = [2, 3] ∧
    (do_send (envSend 1) w0 5 (lnText [1, 2, 3]) .text 1).ln.text_len = 2 ∧
    (do_send (envSend 1) w0 5 (lnText [1, 2, 3]) .text 1).ln.textData ≠ [1, 3] := by
  decide

/-! ## Uniqueness of descriptors in the readiness table -/

theorem runPoll_unique (ops : List PollOp) :
    ∀ cl : List Pollfd, UniqueFds cl → UniqueFds (runPoll cl ops) := by
  induction ops with
  | nil => intro cl hu; exact hu
  | cons op ops ih =>
    intro cl hu
    unfold runPoll
    apply ih
    cases op with
    | set fd ev => exact poll_set_unique cl fd ev hu
    | add fd ev => exact poll_add_unique cl fd ev hu
    | rm fd ev => exact poll_rm_unique cl fd ev hu
    | del fd => exact poll_del_unique cl fd hu

theorem count_le_one_index (l : List Int) (x : Int) (h : l.count x ≤ 1) :
    ∀ i j : Nat, l[i]? = some x → l[j]? = some x → i = j := by
  induction l with
  | nil => intro i j hi; simp at hi
  | cons a as ih =>
    intro i j hi hj
    rw [List.count_cons] at h
    by_cases ha : a = x
    · subst ha
      simp only [beq_self_eq_true, if_true] at h
      have hz : as.count a = 0 := by omega
      have hnot : a ∉ as := List.count_eq_zero.mp hz
      cases i with
      | zero =>
        cases j with
        | zero => rfl
        | succ j' =>
          simp only [List.getElem?_cons_succ] at hj
          exact absurd (List.getElem?_mem hj) hnot
      | succ i' =>
        simp only [List.getElem?_cons_succ] at hi
        exact absurd (List.getElem?_mem hi) hnot
    · have hb : (a == x) = false := by simpa using ha
      simp only [hb, Bool.false_eq_true, if_false, Nat.add_zero] at h
      cases i with
      | zero => simp at hi; exact absurd hi ha
      | succ i' =>
        cases j with
        | zero => simp at hj; exact absurd hj ha
        | succ j' =>
          simp only [List.getElem?_cons_succ] at hi hj
          rw [ih h i' j' hi hj]

/-- C21: in the table obtained from `poll_init` by any sequence of `poll_set`,
`poll_add`, `poll_rm` and `poll_del` calls, every descriptor `fd ≥ 0` occupies
at most one row among rows 1..nfds-1: the number of such rows is at most 1, and
two rows `i, j ≥ 1` that hold `fd` are the same row. -/
theorem poll_rows_unique (nfds : Nat) (ops : List PollOp) (fd : Int) (hfd : 0 ≤ fd) :
    rowCount (runPoll (poll_init nfds) ops) fd ≤ 1 ∧
    ∀ (i j : Nat) (c d : Pollfd), 1 ≤ i → 1 ≤ j →
      (runPoll (poll_init nfds) ops)[i]? = some c →
      (runPoll (poll_init nfds) ops)[j]? = some d →
      c.fd = fd → d.fd = fd → i = j := by
  have hu := runPoll_unique ops (poll_init nfds) (poll_init_unique nfds) fd (by omega)
  refine ⟨hu, ?_⟩
  intro i j c d hi hj hc hd hcf hdf
  unfold rowCount at hu
  obtain ⟨i', rfl⟩ : ∃ k, i = k + 1 := ⟨i - 1, by omega⟩
  obtain ⟨j', rfl⟩ : ∃ k, j = k + 1 := ⟨j - 1, by omega⟩
  have key : ∀ (k : Nat) (r : Pollfd), (runPoll (poll_init nfds) ops)[k + 1]? = some r →
      r.fd = fd →
      (((runPoll (poll_init nfds) ops).tail).map (fun c => c.fd))[k]? = some fd := by
    intro k r hr hrf
    cases hcl : runPoll (poll_init nfds) ops with
    | nil => rw [hcl] at hr; simp at hr
    | cons c0 rows =>
      rw [hcl] at hr
      simp only [List.getElem?_cons_succ] at hr
      simp [List.getElem?_map, hr, hrf]
  have := count_le_one_index _ fd hu i' j' (key i' c hc hcf) (key j' d hd hdf)
  omega

/-- C21 on a four-row table and the calls `opsPoll`: descriptor 5 is
registered, changed, forgotten and registered again, and holds one row at the
end. -/
theorem poll_rows_unique_witness :
    rowCount (runPoll (poll_init 4) opsPoll) 5 ≤ 1 ∧
    runPoll (poll_init 4) opsPoll = [⟨-1, 0⟩, ⟨5, 1⟩, ⟨6, 1⟩, ⟨7, 1⟩] :=
  ⟨(poll_rows_unique 4 opsPoll 5 (by decide)).1, by decide⟩

end SsTiny
